import Mathlib

/-!
Aqua: checksum verification, dedicated installer and `generate` resolution.

A shallow embedding of

* `pkg/installpackage/checksum.go` (`Installer.verifyChecksum`),
* `pkg/installpackage/dedicated_installer.go` (`DedicatedInstaller.install`),
* `pkg/controller/generate/generate.go`
  (`getGeneratePkg`, `listPkgsWithoutFinder`, `getOutputtedPkg`).

Go strings are Lean strings; Go maps are association lists; every collaborator
that lives outside these files (file system, downloader, manifest parser,
version getter, override and platform predicate, the delegated installer) is an
explicit input of the function that calls it, and every effect the functions
have on shared state (ledger writes, downloads, lock operations) is returned
in an explicit trace next to the result.
-/

set_option linter.dupNamespace false

namespace Aqua

/-! ## Go maps with string keys -/

/-- Go `m[key] = value` on a map kept as an association list: an existing
binding of `key` is replaced in place, a new one is appended. -/
def mapSet {α : Type} : List (String × α) → String → α → List (String × α)
  | [], key, value => [(key, value)]
  | (k, v) :: rest, key, value =>
    if k = key then (k, value) :: rest else (k, v) :: mapSet rest key value

/-- Go `v, ok := m[key]`. -/
def mapGet {α : Type} : List (String × α) → String → Option α
  | [], _ => none
  | (k, v) :: rest, key => if k = key then some v else mapGet rest key

/-! ## The checksum ledger (`checksum.Checksums`) -/

/-- Modelled from the spec: the type `checksum.Checksums` is declared outside
the files at hand; the spec gives it as a mapping ChecksumID → value with
`get(id) -> value|empty` and `set(id, value)` an idempotent overwrite. -/
abbrev Checksums := List (String × String)

/-- Modelled from the spec: `checksums.Get(id)`, the stored value or the empty
string. -/
def Checksums.Get (c : Checksums) (key : String) : String :=
  (mapGet c key).getD ""

/-- Modelled from the spec: `checksums.Set(id, value)`, overwriting. -/
def Checksums.Set (c : Checksums) (key value : String) : Checksums :=
  mapSet c key value

/-- Modelled from the spec: `checksum.New()`, the empty ledger. -/
def Checksums.New : Checksums := []

/-! ## Package metadata -/

/-- The parts of `registry.PackageInfo` that the three files read. `Name` and
`Link` stand for the results of `GetName()` and `GetLink()`, `ChecksumEnabled`
for `Checksum.Enabled()`, `ChecksumAlgorithm` for `Checksum.GetAlgorithm()`,
`PkgType` for the field `Type`, and `Aliases` for the `Name` of each alias. -/
structure PackageInfo where
  Name : String
  Link : String
  Description : String
  PkgType : String
  ChecksumEnabled : Bool
  ChecksumAlgorithm : String
  Rosetta2 : Bool
  WindowsARMEmulation : Bool
  Aliases : List String
  deriving DecidableEq, Repr

/-- The fields of `aqua.Package` that the three files read or write. -/
structure AquaPackage where
  Name : String
  Registry : String
  Version : String
  Link : String
  Description : String
  deriving DecidableEq, Repr

/-- The type `config.Package`: the descriptor and its resolved metadata. -/
structure Package where
  Package : AquaPackage
  PackageInfo : PackageInfo
  deriving DecidableEq, Repr

/-! ## `verifyChecksum` -/

/-- The temporary file of `verifyChecksum`: the two arguments of
`filepath.Join(tempDir, name)`. -/
structure TempFile where
  dir : String
  name : String
  deriving DecidableEq, Repr

/-- The error exits of `verifyChecksum`, one per `return nil, ...`. -/
inductive VerifyErr where
  | createTempDir
  | createTempFile (tempFile : TempFile)
  | copy
  | calculate (tempFile : TempFile)
  | getChecksumID
  | downloadChecksum
  | readChecksum
  | parseChecksum
  | invalidChecksum (actual_checksum expected_checksum : String)
  | openFile
  deriving DecidableEq, Repr

/-- Effects of `verifyChecksum` on its collaborators and on the ledger, in
program order. `setFromManifest` is the `checksums.Set` of the manifest loop,
`setCalculated` the final `checksums.Set(checksumID, calculatedSum)`. -/
inductive VerifyEvent where
  | downloadChecksum
  | setFromManifest (id value : String)
  | setCalculated (id value : String)
  deriving DecidableEq, Repr

/-- The collaborators of `verifyChecksum`: what each call outside the function
answers. `none` and `false` are the error returns. -/
structure VerifyEnv where
  /-- Result of `afero.TempDir`. -/
  tempDir : Option String
  /-- Result of `inst.fs.Create`. -/
  create : Bool
  /-- Result of `io.Copy`. -/
  copy : Bool
  /-- Result of `checksum.Calculate` on the copied body with an algorithm. -/
  calculate : String → String → Option String
  /-- Result of `pkg.GetChecksumID`. -/
  getChecksumID : Option String
  /-- Result of `DownloadChecksum`. -/
  downloadChecksum : Bool
  /-- Result of `io.ReadAll` on the downloaded manifest. -/
  readAll : Option String
  /-- Result of `ParseChecksumFile`: filename/value pairs in the order in which
  the `range` loop visits them. -/
  parseChecksumFile : String → Option (List (String × String))
  /-- Result of `pkg.GetChecksumIDFromAsset`. -/
  getChecksumIDFromAsset : String → Option String
  /-- Result of the final `inst.fs.Open`. -/
  openFile : Bool

/-- What a call of `verifyChecksum` leaves behind: the returned pair, the
ledger, and the effects in program order. -/
structure VerifyOut where
  result : Except VerifyErr TempFile
  checksums : Checksums
  trace : List VerifyEvent

/-- The loop `for fileName, chksum := range m` of `verifyChecksum`: a filename
whose ID cannot be derived is logged and skipped. -/
def manifestLoop (getID : String → Option String) :
    List (String × String) → Checksums → List VerifyEvent → Checksums × List VerifyEvent
  | [], checksums, trace => (checksums, trace)
  | (fileName, chksum) :: rest, checksums, trace =>
    match getID fileName with
    | none => manifestLoop getID rest checksums trace
    | some chksumID =>
      manifestLoop getID rest (checksums.Set chksumID chksum)
        (trace ++ [VerifyEvent.setFromManifest chksumID chksum])

/-- The end of `verifyChecksum`, from the comparison on: lines 81 to 94. -/
def verifyTail (env : VerifyEnv) (tempFile : TempFile) (checksumID calculatedSum chksum : String)
    (checksums : Checksums) (trace : List VerifyEvent) : VerifyOut :=
  if chksum ≠ "" ∧ calculatedSum ≠ chksum then
    ⟨.error (.invalidChecksum calculatedSum chksum), checksums, trace⟩
  else
    let (checksums, trace) :=
      if chksum = "" then
        (checksums.Set checksumID calculatedSum,
          trace ++ [VerifyEvent.setCalculated checksumID calculatedSum])
      else (checksums, trace)
    if env.openFile then ⟨.ok tempFile, checksums, trace⟩
    else ⟨.error .openFile, checksums, trace⟩

/-- The method `Installer.verifyChecksum`. The deferred removal of the temporary
directory and the closing of the two files have no bearing on the result or
the ledger and are not traced. -/
def verifyChecksum (env : VerifyEnv) (checksums : Checksums) (pkg : Package)
    (assetName : String) (body : String) : VerifyOut :=
  let pkgInfo := pkg.PackageInfo
  match env.tempDir with
  | none => ⟨.error .createTempDir, checksums, []⟩
  | some tempDir =>
  let tempFile : TempFile :=
    if assetName = "" ∧ (pkgInfo.PkgType = "github_archive" ∨ pkgInfo.PkgType = "go") then
      ⟨tempDir, "archive.tar.gz"⟩
    else ⟨tempDir, assetName⟩
  if ¬ env.create then ⟨.error (.createTempFile tempFile), checksums, []⟩ else
  if ¬ env.copy then ⟨.error .copy, checksums, []⟩ else
  match env.calculate body pkg.PackageInfo.ChecksumAlgorithm with
  | none => ⟨.error (.calculate tempFile), checksums, []⟩
  | some calculatedSum =>
  match env.getChecksumID with
  | none => ⟨.error .getChecksumID, checksums, []⟩
  | some checksumID =>
  let chksum := checksums.Get checksumID
  if chksum = "" ∧ pkgInfo.ChecksumEnabled then
    if ¬ env.downloadChecksum then
      ⟨.error .downloadChecksum, checksums, [VerifyEvent.downloadChecksum]⟩
    else
    match env.readAll with
    | none => ⟨.error .readChecksum, checksums, [VerifyEvent.downloadChecksum]⟩
    | some b =>
    match env.parseChecksumFile b with
    | none => ⟨.error .parseChecksum, checksums, [VerifyEvent.downloadChecksum]⟩
    | some m =>
    let (checksums, trace) :=
      manifestLoop env.getChecksumIDFromAsset m checksums [VerifyEvent.downloadChecksum]
    let chksum := match mapGet m assetName with
      | some c => c
      | none => chksum
    verifyTail env tempFile checksumID calculatedSum chksum checksums trace
  else
    verifyTail env tempFile checksumID calculatedSum chksum checksums []

/-- The expected value of a verification as the specification words it: the
ledger's value for the artifact's ChecksumID when that is non-empty; otherwise,
when the checksum policy is enabled, the manifest's value for the asset name
when present; otherwise empty. -/
def expectedChecksum (checksums : Checksums) (enabled : Bool) (m : List (String × String))
    (checksumID assetName : String) : String :=
  if checksums.Get checksumID ≠ "" then checksums.Get checksumID
  else if enabled then
    match mapGet m assetName with
    | some c => c
    | none => ""
  else ""

/-- The steps of `verifyChecksum` before the comparison succeed: the temporary
file, the copy, the digest (`calculatedSum`) and the ChecksumID (`checksumID`),
and, when the manifest is fetched, its download, read and parse (to `m`). -/
structure StepsSucceed (env : VerifyEnv) (checksums : Checksums) (pkg : Package) (body : String)
    (calculatedSum checksumID : String) (m : List (String × String)) : Prop where
  tempDir : env.tempDir.isSome = true
  create : env.create = true
  copy : env.copy = true
  calculate : env.calculate body pkg.PackageInfo.ChecksumAlgorithm = some calculatedSum
  getChecksumID : env.getChecksumID = some checksumID
  fetch : checksums.Get checksumID = "" → pkg.PackageInfo.ChecksumEnabled = true →
    env.downloadChecksum = true ∧
      ∃ b, env.readAll = some b ∧ env.parseChecksumFile b = some m

/-- The assumptions on ChecksumID derivation under which a verified handle
implies a ledger entry: in every manifest the parser can return, the filenames
are pairwise distinct (it is a Go map), no two of them are given the same ID,
and the asset name, when covered, is given the ID of `GetChecksumID`. -/
def ManifestIDsAgree (env : VerifyEnv) (assetName checksumID : String) : Prop :=
  ∀ b m, env.readAll = some b → env.parseChecksumFile b = some m →
    (m.map Prod.fst).Nodup ∧
    (∀ f ∈ m.map Prod.fst, ∀ g ∈ m.map Prod.fst, ∀ i,
      env.getChecksumIDFromAsset f = some i → env.getChecksumIDFromAsset g = some i → f = g) ∧
    (assetName ∈ m.map Prod.fst → env.getChecksumIDFromAsset assetName = some checksumID)

/-! ### Concrete inputs -/

/-- A package with the checksum policy enabled. -/
def demoPkg : Package :=
  { Package :=
      { Name := "cli/cli", Registry := "standard", Version := "v2.0.0", Link := "",
        Description := "" },
    PackageInfo :=
      { Name := "cli/cli", Link := "https://github.com/cli/cli", Description := "GitHub CLI",
        PkgType := "github_release", ChecksumEnabled := true, ChecksumAlgorithm := "sha256",
        Rosetta2 := false, WindowsARMEmulation := false, Aliases := ["gh"] } }

/-- Derivation of a ChecksumID from an asset name, for the concrete inputs. -/
def demoID (fileName : String) : Option String :=
  some ("github_release/github.com/cli/cli/v2.0.0/" ++ fileName)

/-- Collaborators that all succeed: the body hashes to `deadbeef`, the manifest
lists `cafebabe` for `gh.tar.gz` and `0badf00d` for `gh.zip`. -/
def demoEnv : VerifyEnv :=
  { tempDir := some "/tmp/1",
    create := true,
    copy := true,
    calculate := fun _ _ => some "deadbeef",
    getChecksumID := demoID "gh.tar.gz",
    downloadChecksum := true,
    readAll := some "cafebabe  gh.tar.gz\n0badf00d  gh.zip\n",
    parseChecksumFile := fun _ => some [("gh.tar.gz", "cafebabe"), ("gh.zip", "0badf00d")],
    getChecksumIDFromAsset := demoID,
    openFile := true }

/-- The collaborators of `demoEnv`, with a release that has no checksum
manifest: `DownloadChecksum` fails. -/
def demoEnvNoManifest : VerifyEnv :=
  { demoEnv with downloadChecksum := false }

/-- The collaborators of `demoEnv`, with a manifest that lists the computed
digest for `gh.tar.gz`. -/
def demoEnvMatching : VerifyEnv :=
  { demoEnv with
    parseChecksumFile := fun _ => some [("gh.tar.gz", "deadbeef"), ("gh.zip", "0badf00d")] }

/-- The collaborators of `demoEnv`, with a manifest that does not cover
`gh.tar.gz`. -/
def demoEnvNotCovered : VerifyEnv :=
  { demoEnv with parseChecksumFile := fun _ => some [("gh.zip", "0badf00d")] }

/-! ## `generate`: identifiers -/

/-- Go `strings.Index` and the split around it, on character lists: the text
before and after the first occurrence of `sep`, or `none` when there is none. -/
def cutChars (sep : List Char) : List Char → Option (List Char × List Char)
  | [] => if sep = [] then some ([], []) else none
  | c :: cs =>
    if sep <+: c :: cs then some ([], (c :: cs).drop sep.length)
    else
      match cutChars sep cs with
      | some (before, after) => some (c :: before, after)
      | none => none

/-- Go `strings.Contains(s, substr)`. -/
def stringsContains (s substr : String) : Bool :=
  (cutChars substr.data s.data).isSome

/-- Go `strings.Cut(s, sep)`: `before, after, found`. -/
def stringsCut (s sep : String) : String × String × Bool :=
  match cutChars sep.data s.data with
  | some (before, after) => (⟨before⟩, ⟨after⟩, true)
  | none => (s, "", false)

/-- The constant `registryStandard` of package `generate`, declared in a file
that is not at hand; `getGeneratePkg` spells the same name out. -/
def registryStandard : String := "standard"

/-- The function `getGeneratePkg`. -/
def getGeneratePkg (s : String) : String :=
  if ¬ stringsContains s "," then "standard," ++ s else s

/-- The type `fuzzyfinder.Package`. -/
structure FuzzyPackage where
  PackageInfo : PackageInfo
  RegistryName : String
  Version : String
  deriving DecidableEq, Repr

/-- The fields of `config.Param` read by `generate`. -/
structure Param where
  Detail : Bool
  Pin : Bool
  SelectVersion : Bool
  Limit : Int
  File : String
  deriving DecidableEq, Repr

/-- The collaborator `fuzzyGetter.Get(ctx, logE, pkgInfo, currentVersion,
useFinder, limit)`: the latest version, or the empty string. -/
abbrev VersionGetter := PackageInfo → String → Bool → Int → String

/-- The map `m` of `listPkgsWithoutFinder`: key `registry,name` to package. -/
abbrev PkgMap := List (String × FuzzyPackage)

/-- The alias loop of `setPkgMap`: an empty alias is skipped with a warning. -/
def setAliases (registryName : String) (pkg : PackageInfo) : List String → PkgMap → PkgMap
  | [], m => m
  | aliasName :: rest, m =>
    if aliasName = "" then setAliases registryName pkg rest m
    else
      setAliases registryName pkg rest
        (mapSet m (registryName ++ "," ++ aliasName)
          { PackageInfo := pkg, RegistryName := registryName, Version := "" })

/-- The inner loop of `setPkgMap` over `registryContent.PackageInfos.ToMap`,
given as name/package pairs in the order the `range` loop visits them. -/
def setRegistryPkgs (registryName : String) : List (String × PackageInfo) → PkgMap → PkgMap
  | [], m => m
  | (pkgName, pkg) :: rest, m =>
    setRegistryPkgs registryName rest
      (setAliases registryName pkg pkg.Aliases
        (mapSet m (registryName ++ "," ++ pkgName)
          { PackageInfo := pkg, RegistryName := registryName, Version := "" }))

/-- The method `setPkgMap`, over the registries in the order the `range` loop
visits them. -/
def setPkgMap : List (String × List (String × PackageInfo)) → PkgMap → PkgMap
  | [], m => m
  | (registryName, registryContent) :: rest, m =>
    setPkgMap rest (setRegistryPkgs registryName registryContent m)

/-- The end of `getOutputtedPkg`, lines 216 to 221: the pinned entry keeps name
and version apart, the other folds the version into the name. -/
def outputVersion (param : Param) (outputPkg : AquaPackage) : AquaPackage :=
  if param.Pin then outputPkg
  else { outputPkg with Name := outputPkg.Name ++ "@" ++ outputPkg.Version, Version := "" }

/-- The method `getOutputtedPkg`. -/
def getOutputtedPkg (fuzzyGetter : VersionGetter) (param : Param) (pkg : FuzzyPackage) :
    AquaPackage :=
  let outputPkg : AquaPackage :=
    { Name := pkg.PackageInfo.Name, Registry := pkg.RegistryName, Version := pkg.Version,
      Link := "", Description := "" }
  let outputPkg :=
    if param.Detail then
      { outputPkg with Link := pkg.PackageInfo.Link, Description := pkg.PackageInfo.Description }
    else outputPkg
  let outputPkg :=
    if outputPkg.Registry = registryStandard then { outputPkg with Registry := "" }
    else outputPkg
  if outputPkg.Version = "" then
    let version := fuzzyGetter pkg.PackageInfo "" param.SelectVersion param.Limit
    if version = "" then { outputPkg with Version := "[SET PACKAGE VERSION]" }
    else outputVersion param { outputPkg with Version := version }
  else outputVersion param outputPkg

/-- The error exits of `listPkgsWithoutFinder`: `errUnknownPkg` with its
`package_name` field, and a failure of `readGeneratedPkgsFromFile`. -/
inductive GenerateErr where
  | unknownPkg (package_name : String)
  | readFile (reason : String)
  deriving DecidableEq, Repr

/-- The loop `for _, pkgName := range pkgNames` of `listPkgsWithoutFinder`.
`findingPkg` is a pointer into `m`, so the assignment to its `Version` is
written back into the map. -/
def listLoop (fuzzyGetter : VersionGetter) (param : Param) :
    PkgMap → List String → List AquaPackage → Except GenerateErr (List AquaPackage × PkgMap)
  | m, [], outputPkgs => .ok (outputPkgs, m)
  | m, pkgName :: rest, outputPkgs =>
    let pkgName := getGeneratePkg pkgName
    let key := (stringsCut pkgName "@").1
    let version := (stringsCut pkgName "@").2.1
    match mapGet m key with
    | none => .error (.unknownPkg pkgName)
    | some findingPkg =>
      let findingPkg := { findingPkg with Version := version }
      let outputPkg := getOutputtedPkg fuzzyGetter param findingPkg
      listLoop fuzzyGetter param (mapSet m key findingPkg) rest (outputPkgs ++ [outputPkg])

/-- The method `listPkgsWithoutFinder`. `readGeneratedPkgsFromFile` is defined
in a file that is not at hand and is taken as a collaborator. -/
def listPkgsWithoutFinder (fuzzyGetter : VersionGetter)
    (readGeneratedPkgsFromFile : List AquaPackage → PkgMap → Except String (List AquaPackage))
    (param : Param) (registryContents : List (String × List (String × PackageInfo)))
    (pkgNames : List String) : Except GenerateErr (List AquaPackage) :=
  let m := setPkgMap registryContents []
  match listLoop fuzzyGetter param m pkgNames [] with
  | .error e => .error e
  | .ok (outputPkgs, m) =>
    if param.File ≠ "" then
      match readGeneratedPkgsFromFile outputPkgs m with
      | .error e => .error (.readFile e)
      | .ok pkgs => .ok pkgs
    else .ok outputPkgs

/-- The entry that one iteration of the loop of `listPkgsWithoutFinder` yields
for an identifier against a given map: `none` when the key is not found. -/
def resolveIdentifier (fuzzyGetter : VersionGetter) (param : Param) (m : PkgMap)
    (pkgName : String) : Option AquaPackage :=
  match mapGet m (stringsCut (getGeneratePkg pkgName) "@").1 with
  | none => none
  | some findingPkg =>
    some (getOutputtedPkg fuzzyGetter param
      { findingPkg with Version := (stringsCut (getGeneratePkg pkgName) "@").2.1 })

/-- Two maps hold the same packages under the same keys, up to the `Version`
that the loop writes back through `findingPkg`. -/
def SameUpToVersion (m0 m : PkgMap) : Prop :=
  ∀ key, (mapGet m0 key).map (fun p => (p.PackageInfo, p.RegistryName)) =
    (mapGet m key).map (fun p => (p.PackageInfo, p.RegistryName))

/-- An identifier in one of the accepted forms `name`, `name@version`,
`registry,name`, `registry,name@version`. -/
def identifier (registry : Option String) (name : String) (version : Option String) : String :=
  (match registry with
    | some r => r ++ ","
    | none => "") ++ name ++
  (match version with
    | some v => "@" ++ v
    | none => "")

/-- The metadata of a package `foo`. -/
def fooInfo : PackageInfo :=
  { Name := "foo", Link := "https://example.com/foo", Description := "foo tool",
    PkgType := "github_release", ChecksumEnabled := false, ChecksumAlgorithm := "sha256",
    Rosetta2 := false, WindowsARMEmulation := false, Aliases := [] }

/-- A registry holding one package, `foo`. -/
def fooRegistry : List (String × List (String × PackageInfo)) :=
  [("standard", [("foo", fooInfo)])]

/-- A version getter that finds no version. -/
def noVersion : VersionGetter := fun _ _ _ _ => ""

/-- The file reader of a run without `-f`: never consulted. -/
def noFile : List AquaPackage → PkgMap → Except String (List AquaPackage) :=
  fun pkgs _ => .ok pkgs

/-- Parameters of a plain `generate` run with the given `Pin` flag. -/
def plainParam (pin : Bool) : Param :=
  { Detail := false, Pin := pin, SelectVersion := false, Limit := 0, File := "" }

/-- A version getter that always finds `v9.9.9`. -/
def latestVersion : VersionGetter := fun _ _ _ _ => "v9.9.9"

/-! ## `DedicatedInstaller.install` -/

/-- The type `checksum.Checksum` as `install` builds it. -/
structure Checksum where
  Algorithm : String
  Checksum : String
  deriving DecidableEq, Repr

/-- The type `ParamInstallPackage`, with the fields `install` sets. -/
structure ParamInstallPackage where
  Checksums : Checksums
  Pkg : Package
  Checksum : Checksum
  DisablePolicy : Bool
  deriving DecidableEq, Repr

/-- The error exits of `install`: the two wrapped errors and the error of
`InstallPackage`, returned as it is. -/
inductive InstallErr where
  | evaluateVersionConstraints (err : String)
  | checkSupported (err : String)
  | installPackage (err : String)
  deriving DecidableEq, Repr

/-- Effects of `install`, in program order: the mutex operations, the call of
the resolver `di.pkg`, the lookup in `di.checksums`, and the delegated
`InstallPackage` with its parameter. -/
inductive InstallEvent where
  | lock
  | unlock
  | resolve
  | checksumLookup (key : String)
  | installPackage (param : ParamInstallPackage)
  deriving DecidableEq, Repr

/-- The installer and runtime behind a `DedicatedInstaller`: `GOOS` and `Arch`
of `installer.runtime`, the metadata methods `Override` and `CheckSupported`
(on that runtime), and `InstallPackage`, whose `none` is the nil error. -/
structure InstallEnv where
  GOOS : String
  Arch : Bool → Bool → String
  Override : PackageInfo → String → Except String PackageInfo
  CheckSupported : PackageInfo → Except String Bool
  InstallPackage : ParamInstallPackage → Option String

/-- The type `DedicatedInstaller`: the resolver `pkg` and the platform to
checksum map; the installer is the `InstallEnv`, the mutex is in the trace. -/
structure DedicatedInstaller where
  pkg : Unit → Package
  checksums : List (String × String)

/-- What a call of `install` leaves behind: the returned error, the descriptor
that `di.pkg()` points to, and the effects in program order. -/
structure InstallOut where
  err : Option InstallErr
  pkg : Package
  trace : List InstallEvent
  deriving DecidableEq, Repr

/-- The body of `install` between `Lock` and the deferred `Unlock`. -/
def installBody (di : DedicatedInstaller) (env : InstallEnv) : InstallOut :=
  let pkg := di.pkg ()
  match env.Override pkg.PackageInfo pkg.Package.Version with
  | .error err => ⟨some (.evaluateVersionConstraints err), pkg, [.resolve]⟩
  | .ok pkgInfo =>
  match env.CheckSupported pkgInfo with
  | .error err => ⟨some (.checkSupported err), pkg, [.resolve]⟩
  | .ok supported =>
  if ¬ supported then ⟨none, pkg, [.resolve]⟩ else
  let pkg := { pkg with PackageInfo := pkgInfo }
  let key := env.GOOS ++ "/" ++
    env.Arch pkg.PackageInfo.Rosetta2 pkg.PackageInfo.WindowsARMEmulation
  let chksum := (mapGet di.checksums key).getD ""
  let param : ParamInstallPackage :=
    { Checksums := Checksums.New,
      Pkg := pkg,
      Checksum := { Algorithm := "sha256", Checksum := chksum },
      DisablePolicy := true }
  match env.InstallPackage param with
  | some err =>
    ⟨some (.installPackage err), pkg, [.resolve, .checksumLookup key, .installPackage param]⟩
  | none => ⟨none, pkg, [.resolve, .checksumLookup key, .installPackage param]⟩

/-- The method `DedicatedInstaller.install`: the body runs between
`di.mutex.Lock()` and the deferred `di.mutex.Unlock()`. -/
def install (di : DedicatedInstaller) (env : InstallEnv) : InstallOut :=
  let out := installBody di env
  { out with trace := [InstallEvent.lock] ++ out.trace ++ [InstallEvent.unlock] }

/-- A runtime on which `demoPkg` is not supported: the override rewrites the
metadata, and the platform predicate of the rewritten metadata answers false. -/
def unsupportedEnv : InstallEnv :=
  { GOOS := "windows",
    Arch := fun _ _ => "arm64",
    Override := fun pkgInfo _ => .ok { pkgInfo with Rosetta2 := true },
    CheckSupported := fun _ => .ok false,
    InstallPackage := fun _ => none }

/-- A dedicated installer of `demoPkg` with one known checksum. -/
def demoInstaller : DedicatedInstaller :=
  { pkg := fun _ => demoPkg,
    checksums := [("linux/amd64", "cafebabe")] }

/-! ## Two calls of `install` on one coordinator -/

/-- The two goroutines that call `install` on the same `DedicatedInstaller`. -/
inductive Caller where
  | first
  | second
  deriving DecidableEq, Repr

/-- The effects of one caller within the effects of the whole process, in
order: a run of the process is an interleaving of its callers' traces. -/
def callTrace (c : Caller) : List (Caller × InstallEvent) → List InstallEvent
  | [] => []
  | (d, e) :: rest => if d = c then e :: callTrace c rest else callTrace c rest

/-- The trace of one call, marked with its caller. -/
def tagged (c : Caller) (trace : List InstallEvent) : List (Caller × InstallEvent) :=
  trace.map fun e => (c, e)

/-- Go `sync.Mutex`, the one mutex of the coordinator, run along the effects of
the process from the state `locked`: `Lock` returns only when the mutex is free
and then holds it, `Unlock` needs a held mutex and frees it, every other effect
leaves it alone. -/
def mutexAdmits : Bool → List (Caller × InstallEvent) → Bool
  | _, [] => true
  | locked, (_, InstallEvent.lock) :: rest => !locked && mutexAdmits true rest
  | locked, (_, InstallEvent.unlock) :: rest => locked && mutexAdmits false rest
  | locked, (_, InstallEvent.resolve) :: rest => mutexAdmits locked rest
  | locked, (_, InstallEvent.checksumLookup _) :: rest => mutexAdmits locked rest
  | locked, (_, InstallEvent.installPackage _) :: rest => mutexAdmits locked rest

/-- A runtime that supports `demoPkg` and on which `InstallPackage` succeeds. -/
def supportedEnv : InstallEnv :=
  { GOOS := "linux",
    Arch := fun _ _ => "amd64",
    Override := fun pkgInfo _ => .ok pkgInfo,
    CheckSupported := fun _ => .ok true,
    InstallPackage := fun _ => none }

/-! ## Ledger lemmas -/

theorem mapGet_mapSet_same {α : Type} (m : List (String × α)) (key : String) (value : α) :
    mapGet (mapSet m key value) key = some value := by
  induction m with
  | nil => simp [mapSet, mapGet]
  | cons p rest ih =>
    obtain ⟨k, v⟩ := p
    by_cases hk : k = key
    · simp [mapSet, mapGet, hk]
    · simp [mapSet, mapGet, hk, ih]

theorem mapGet_mapSet_other {α : Type} (m : List (String × α)) (key other : String) (value : α)
    (hne : other ≠ key) : mapGet (mapSet m key value) other = mapGet m other := by
  have hne2 : ¬ key = other := fun h => hne h.symm
  induction m with
  | nil => simp [mapSet, mapGet, hne2]
  | cons p rest ih =>
    obtain ⟨k, v⟩ := p
    by_cases hk : k = key
    · subst hk
      simp [mapSet, mapGet, hne2]
    · by_cases hko : k = other
      · subst hko
        simp [mapSet, mapGet, hk]
      · simp [mapSet, mapGet, hk, hko, ih]

theorem Checksums.Get_Set_same (c : Checksums) (key value : String) :
    (c.Set key value).Get key = value := by
  simp [Checksums.Get, Checksums.Set, mapGet_mapSet_same]

theorem Checksums.Get_Set_other (c : Checksums) (key other value : String) (hne : other ≠ key) :
    (c.Set key value).Get other = c.Get other := by
  simp [Checksums.Get, Checksums.Set, mapGet_mapSet_other _ _ _ _ hne]

/-! ## The manifest loop -/

/-- The ledger the loop produces does not depend on the trace it extends. -/
theorem manifestLoop_fst (getID : String → Option String) (m : List (String × String)) :
    ∀ (checksums : Checksums) (t1 t2 : List VerifyEvent),
      (manifestLoop getID m checksums t1).1 = (manifestLoop getID m checksums t2).1 := by
  induction m with
  | nil => intro c t1 t2; simp [manifestLoop]
  | cons p rest ih =>
    intro c t1 t2
    obtain ⟨f, v⟩ := p
    cases hid : getID f with
    | none => simp [manifestLoop, hid]; exact ih _ _ _
    | some i => simp [manifestLoop, hid]; exact ih _ _ _

/-- The loop only ever appends `setFromManifest` events. -/
theorem manifestLoop_trace (getID : String → Option String) (m : List (String × String)) :
    ∀ (checksums : Checksums) (trace : List VerifyEvent) (e : VerifyEvent),
      e ∈ (manifestLoop getID m checksums trace).2 →
        e ∈ trace ∨ ∃ i v, e = VerifyEvent.setFromManifest i v := by
  induction m with
  | nil => intro c t e he; exact Or.inl (by simpa [manifestLoop] using he)
  | cons p rest ih =>
    intro c t e he
    obtain ⟨f, v⟩ := p
    cases hid : getID f with
    | none =>
      simp only [manifestLoop, hid] at he
      exact ih _ _ _ he
    | some i =>
      simp only [manifestLoop, hid] at he
      rcases ih _ _ _ he with h | h
      · rcases List.mem_append.mp h with h | h
        · exact Or.inl h
        · exact Or.inr ⟨i, v, by simpa using h⟩
      · exact Or.inr h

/-- A ledger entry whose ID no manifest filename maps to survives the loop. -/
theorem manifestLoop_get_untouched (getID : String → Option String) (id : String)
    (m : List (String × String)) :
    (∀ p ∈ m, getID p.1 ≠ some id) →
    ∀ (checksums : Checksums) (trace : List VerifyEvent),
      (manifestLoop getID m checksums trace).1.Get id = checksums.Get id := by
  induction m with
  | nil => intro _ c t; simp [manifestLoop]
  | cons p rest ih =>
    intro hm c t
    obtain ⟨f, v⟩ := p
    have hrest : ∀ q ∈ rest, getID q.1 ≠ some id := fun q hq => hm q (List.mem_cons_of_mem _ hq)
    cases hid : getID f with
    | none =>
      simp only [manifestLoop, hid]
      exact ih hrest _ _
    | some i =>
      simp only [manifestLoop, hid]
      rw [ih hrest]
      have hne : id ≠ i := by
        intro h
        exact hm (f, v) (List.mem_cons_self _ _) (by simp [hid, h])
      exact Checksums.Get_Set_other _ _ _ _ hne

/-- When manifest filenames are pairwise distinct and no two of them are given
the same ID, the loop leaves under the ID of a covered filename that filename's
value. -/
theorem manifestLoop_get_covered (getID : String → Option String) (assetName id c : String)
    (m : List (String × String)) :
    (m.map Prod.fst).Nodup →
    (∀ f ∈ m.map Prod.fst, ∀ g ∈ m.map Prod.fst, ∀ i, getID f = some i → getID g = some i →
      f = g) →
    mapGet m assetName = some c → getID assetName = some id →
    ∀ (checksums : Checksums) (trace : List VerifyEvent),
      (manifestLoop getID m checksums trace).1.Get id = c := by
  induction m with
  | nil => intro _ _ hget; simp [mapGet] at hget
  | cons p rest ih =>
    intro hnodup hinj hget hid cs t
    obtain ⟨f, v⟩ := p
    simp only [List.map_cons, List.nodup_cons] at hnodup
    by_cases hf : f = assetName
    · subst hf
      simp only [mapGet, if_true] at hget
      have hcv : v = c := by simpa using hget
      subst hcv
      simp only [manifestLoop, hid]
      rw [manifestLoop_get_untouched]
      · exact Checksums.Get_Set_same _ _ _
      · intro q hq hq2
        have hqmem : q.1 ∈ rest.map Prod.fst := List.mem_map_of_mem _ hq
        have : f = q.1 := hinj f (by simp) q.1 (by simp [hqmem]) id hid hq2
        exact hnodup.1 (this ▸ hqmem)
    · have hget2 : mapGet rest assetName = some c := by simpa [mapGet, hf] using hget
      have hinj2 : ∀ a ∈ rest.map Prod.fst, ∀ b ∈ rest.map Prod.fst, ∀ i,
          getID a = some i → getID b = some i → a = b :=
        fun a ha b hb => hinj a (List.mem_cons_of_mem _ ha) b (List.mem_cons_of_mem _ hb)
      cases hidf : getID f with
      | none =>
        simp only [manifestLoop, hidf]
        exact ih hnodup.2 hinj2 hget2 hid _ _
      | some i =>
        simp only [manifestLoop, hidf]
        exact ih hnodup.2 hinj2 hget2 hid _ _

/-! ## `verifyChecksum` -/

/-- The outcome of `verifyTail`: an integrity error exactly when the value
compared is non-empty and differs from the digest. -/
theorem verifyTail_result (env : VerifyEnv) (tempFile : TempFile)
    (checksumID calculatedSum chksum : String) (checksums : Checksums)
    (trace : List VerifyEvent) :
    (verifyTail env tempFile checksumID calculatedSum chksum checksums trace).result =
      if chksum ≠ "" ∧ calculatedSum ≠ chksum then
        .error (.invalidChecksum calculatedSum chksum)
      else if env.openFile then .ok tempFile else .error .openFile := by
  unfold verifyTail
  by_cases h : chksum ≠ "" ∧ calculatedSum ≠ chksum
  · rw [if_pos h, if_pos h]
  · rw [if_neg h, if_neg h]
    by_cases h2 : chksum = "" <;> by_cases h3 : env.openFile = true <;> simp [h2, h3]

/-- The ledger and trace that `verifyTail` leaves. -/
theorem verifyTail_effects (env : VerifyEnv) (tempFile : TempFile)
    (checksumID calculatedSum chksum : String) (checksums : Checksums)
    (trace : List VerifyEvent) :
    let out := verifyTail env tempFile checksumID calculatedSum chksum checksums trace
    (chksum = "" →
      out.checksums = checksums.Set checksumID calculatedSum ∧
      out.trace = trace ++ [VerifyEvent.setCalculated checksumID calculatedSum]) ∧
    (chksum ≠ "" → out.checksums = checksums ∧ out.trace = trace) := by
  unfold verifyTail
  by_cases h2 : chksum = ""
  · by_cases h3 : env.openFile = true <;> simp [h2, h3]
  · by_cases h : calculatedSum = chksum <;> by_cases h3 : env.openFile = true <;>
      simp [h, h2, h3]

/-- Under `StepsSucceed`, `verifyChecksum` is its tail run on the expected
value of the specification, after the manifest loop when the manifest is
fetched. -/
theorem verifyChecksum_eq_tail (env : VerifyEnv) (checksums : Checksums) (pkg : Package)
    (assetName body calculatedSum checksumID : String) (m : List (String × String))
    (h : StepsSucceed env checksums pkg body calculatedSum checksumID m) :
    ∃ tempFile : TempFile,
      verifyChecksum env checksums pkg assetName body =
        if checksums.Get checksumID = "" ∧ pkg.PackageInfo.ChecksumEnabled = true then
          verifyTail env tempFile checksumID calculatedSum
            (expectedChecksum checksums pkg.PackageInfo.ChecksumEnabled m checksumID assetName)
            (manifestLoop env.getChecksumIDFromAsset m checksums
              [VerifyEvent.downloadChecksum]).1
            (manifestLoop env.getChecksumIDFromAsset m checksums
              [VerifyEvent.downloadChecksum]).2
        else
          verifyTail env tempFile checksumID calculatedSum
            (expectedChecksum checksums pkg.PackageInfo.ChecksumEnabled m checksumID assetName)
            checksums [] := by
  obtain ⟨htd, hcr, hcp, hcalc, hid, hfetch⟩ := h
  obtain ⟨tempDir, htd⟩ := Option.isSome_iff_exists.mp htd
  refine ⟨if assetName = "" ∧ (pkg.PackageInfo.PkgType = "github_archive" ∨
      pkg.PackageInfo.PkgType = "go") then ⟨tempDir, "archive.tar.gz"⟩
    else ⟨tempDir, assetName⟩, ?_⟩
  unfold verifyChecksum
  simp only [htd, hcr, hcp, hcalc, hid, not_true_eq_false, if_false]
  by_cases hf : checksums.Get checksumID = "" ∧ pkg.PackageInfo.ChecksumEnabled = true
  · obtain ⟨hdl, b, hrd, hps⟩ := hfetch hf.1 hf.2
    simp only [hf, and_self, if_true, hdl, hrd, hps, not_true_eq_false, if_false]
    have he : expectedChecksum checksums true m checksumID assetName =
        (match mapGet m assetName with
          | some c => c
          | none => "") := by
      simp [expectedChecksum, hf.1]
    rw [he]
  · simp only [hf, if_false]
    have he : expectedChecksum checksums pkg.PackageInfo.ChecksumEnabled m checksumID assetName
        = checksums.Get checksumID := by
      unfold expectedChecksum
      by_cases hg : checksums.Get checksumID = ""
      · have hen : pkg.PackageInfo.ChecksumEnabled = false := by
          cases hb : pkg.PackageInfo.ChecksumEnabled
          · rfl
          · exact absurd ⟨hg, hb⟩ hf
        simp [hg, hen]
      · simp [hg]
    rw [he]

/-- C1: when the steps before the comparison succeed, `verifyChecksum` returns
`errInvalidChecksum` with `actual_checksum` the computed digest and
`expected_checksum` the expected value, and no file handle, whenever the
expected value (ledger first, else the manifest's value for the asset name under
an enabled policy, else empty) is non-empty and differs from the digest; when
the expected value is empty or equals the digest it returns no
`errInvalidChecksum`. -/
theorem verifyChecksum_invalid_checksum (env : VerifyEnv) (checksums : Checksums)
    (pkg : Package) (assetName body calculatedSum checksumID : String)
    (m : List (String × String))
    (h : StepsSucceed env checksums pkg body calculatedSum checksumID m) :
    (expectedChecksum checksums pkg.PackageInfo.ChecksumEnabled m checksumID assetName ≠ "" ∧
      expectedChecksum checksums pkg.PackageInfo.ChecksumEnabled m checksumID assetName
        ≠ calculatedSum →
      (verifyChecksum env checksums pkg assetName body).result =
          .error (.invalidChecksum calculatedSum
            (expectedChecksum checksums pkg.PackageInfo.ChecksumEnabled m checksumID assetName))
        ∧ ∀ file, (verifyChecksum env checksums pkg assetName body).result ≠ .ok file) ∧
    (expectedChecksum checksums pkg.PackageInfo.ChecksumEnabled m checksumID assetName = "" ∨
      expectedChecksum checksums pkg.PackageInfo.ChecksumEnabled m checksumID assetName
        = calculatedSum →
      ∀ actual expected, (verifyChecksum env checksums pkg assetName body).result ≠
        .error (.invalidChecksum actual expected)) := by
  obtain ⟨tempFile, heq⟩ := verifyChecksum_eq_tail env checksums pkg assetName body
    calculatedSum checksumID m h
  have hres : (verifyChecksum env checksums pkg assetName body).result =
      if expectedChecksum checksums pkg.PackageInfo.ChecksumEnabled m checksumID assetName ≠ "" ∧
          calculatedSum ≠
            expectedChecksum checksums pkg.PackageInfo.ChecksumEnabled m checksumID assetName then
        .error (.invalidChecksum calculatedSum
          (expectedChecksum checksums pkg.PackageInfo.ChecksumEnabled m checksumID assetName))
      else if env.openFile then .ok tempFile else .error .openFile := by
    rw [heq]
    split <;> exact verifyTail_result _ _ _ _ _ _ _
  constructor
  · rintro ⟨hne, hdiff⟩
    have hc : expectedChecksum checksums pkg.PackageInfo.ChecksumEnabled m checksumID assetName
          ≠ "" ∧ calculatedSum ≠
        expectedChecksum checksums pkg.PackageInfo.ChecksumEnabled m checksumID assetName :=
      ⟨hne, fun e => hdiff e.symm⟩
    rw [hres, if_pos hc]
    exact ⟨rfl, fun file hfile => by cases hfile⟩
  · intro hor actual expected
    have hc : ¬ (expectedChecksum checksums pkg.PackageInfo.ChecksumEnabled m checksumID assetName
          ≠ "" ∧ calculatedSum ≠
        expectedChecksum checksums pkg.PackageInfo.ChecksumEnabled m checksumID assetName) := by
      rintro ⟨h1, h2⟩
      rcases hor with h3 | h3
      · exact h1 h3
      · exact h2 h3.symm
    rw [hres, if_neg hc]
    by_cases ho : env.openFile = true
    · rw [if_pos ho]; intro hcontra; cases hcontra
    · rw [if_neg ho]; intro hcontra; cases hcontra

/-- The steps of the concrete run succeed. -/
theorem demoEnv_steps :
    StepsSucceed demoEnv [] demoPkg "bytes" "deadbeef"
      "github_release/github.com/cli/cli/v2.0.0/gh.tar.gz"
      [("gh.tar.gz", "cafebabe"), ("gh.zip", "0badf00d")] :=
  ⟨rfl, rfl, rfl, rfl, rfl, fun _ _ => ⟨rfl, _, rfl, rfl⟩⟩

/-- Witness of C1, the spec's Example B: digest `deadbeef` against the manifest's
`cafebabe` is an integrity error naming both values. -/
theorem verifyChecksum_invalid_checksum_witness :
    StepsSucceed demoEnv [] demoPkg "bytes" "deadbeef"
      "github_release/github.com/cli/cli/v2.0.0/gh.tar.gz"
      [("gh.tar.gz", "cafebabe"), ("gh.zip", "0badf00d")] ∧
    (verifyChecksum demoEnv [] demoPkg "gh.tar.gz" "bytes").result =
      .error (.invalidChecksum "deadbeef" "cafebabe") :=
  ⟨demoEnv_steps,
    ((verifyChecksum_invalid_checksum demoEnv [] demoPkg "gh.tar.gz" "bytes" "deadbeef"
      "github_release/github.com/cli/cli/v2.0.0/gh.tar.gz"
      [("gh.tar.gz", "cafebabe"), ("gh.zip", "0badf00d")] demoEnv_steps).1
        ⟨by decide, by decide⟩).1⟩

/-- C3: for a ledger that already holds a non-empty value under the artifact's
ChecksumID, `verifyChecksum` leaves the ledger exactly as it was on every exit,
and performs no effect at all: the manifest is not fetched and `checksums.Set`
is never called. -/
theorem verifyChecksum_ledger_frame (env : VerifyEnv) (checksums : Checksums) (pkg : Package)
    (assetName body checksumID : String)
    (hid : env.getChecksumID = some checksumID)
    (hheld : checksums.Get checksumID ≠ "") :
    (verifyChecksum env checksums pkg assetName body).checksums = checksums ∧
    (verifyChecksum env checksums pkg assetName body).trace = [] := by
  unfold verifyChecksum
  cases htd : env.tempDir with
  | none => simp
  | some tempDir =>
    by_cases hcr : env.create = true
    · by_cases hcp : env.copy = true
      · cases hcalc : env.calculate body pkg.PackageInfo.ChecksumAlgorithm with
        | none => simp [hcr, hcp]
        | some calculatedSum =>
          simp only [hcr, hcp, hid, hheld, not_true_eq_false, if_false, false_and]
          exact (verifyTail_effects env _ checksumID calculatedSum _ checksums []).2 hheld
      · simp [hcr, hcp]
    · simp [hcr]

/-- Witness of C3: a ledger that already records `cafebabe` for the artifact is
returned unchanged, with no effect, by a run that ends in an integrity error. -/
theorem verifyChecksum_ledger_frame_witness :
    demoEnv.getChecksumID = some "github_release/github.com/cli/cli/v2.0.0/gh.tar.gz" ∧
    Checksums.Get [("github_release/github.com/cli/cli/v2.0.0/gh.tar.gz", "cafebabe")]
      "github_release/github.com/cli/cli/v2.0.0/gh.tar.gz" ≠ "" ∧
    (verifyChecksum demoEnv
        [("github_release/github.com/cli/cli/v2.0.0/gh.tar.gz", "cafebabe")]
        demoPkg "gh.tar.gz" "bytes").checksums =
      [("github_release/github.com/cli/cli/v2.0.0/gh.tar.gz", "cafebabe")] ∧
    (verifyChecksum demoEnv
        [("github_release/github.com/cli/cli/v2.0.0/gh.tar.gz", "cafebabe")]
        demoPkg "gh.tar.gz" "bytes").trace = [] :=
  ⟨rfl, by decide,
    verifyChecksum_ledger_frame demoEnv
      [("github_release/github.com/cli/cli/v2.0.0/gh.tar.gz", "cafebabe")]
      demoPkg "gh.tar.gz" "bytes" "github_release/github.com/cli/cli/v2.0.0/gh.tar.gz"
      rfl (by decide)⟩

/-- C2: when no step fails, the final write `checksums.Set(checksumID,
calculatedSum)` happens if and only if the ledger held no value for the ID and
either the checksum policy is disabled or the parsed manifest has no non-empty
value for the asset name; when it happens it is the last effect and the ledger
then holds the digest. Whenever an expected value was obtained, the call fails
with the integrity error on that value exactly when the digest differs from it,
and the final write does not happen. -/
theorem verifyChecksum_trust_on_first_use (env : VerifyEnv) (checksums : Checksums)
    (pkg : Package) (assetName body calculatedSum checksumID : String)
    (m : List (String × String))
    (h : StepsSucceed env checksums pkg body calculatedSum checksumID m)
    (hopen : env.openFile = true) :
    ((∃ id value, VerifyEvent.setCalculated id value ∈
          (verifyChecksum env checksums pkg assetName body).trace) ↔
      (checksums.Get checksumID = "" ∧
        (pkg.PackageInfo.ChecksumEnabled = false ∨ (mapGet m assetName).getD "" = ""))) ∧
    ((∃ id value, VerifyEvent.setCalculated id value ∈
          (verifyChecksum env checksums pkg assetName body).trace) →
      (∃ before, (verifyChecksum env checksums pkg assetName body).trace =
          before ++ [VerifyEvent.setCalculated checksumID calculatedSum]) ∧
      (verifyChecksum env checksums pkg assetName body).checksums.Get checksumID
        = calculatedSum) ∧
    (expectedChecksum checksums pkg.PackageInfo.ChecksumEnabled m checksumID assetName ≠ "" →
      ((verifyChecksum env checksums pkg assetName body).result =
          .error (.invalidChecksum calculatedSum
            (expectedChecksum checksums pkg.PackageInfo.ChecksumEnabled m checksumID assetName))
        ↔ calculatedSum ≠
            expectedChecksum checksums pkg.PackageInfo.ChecksumEnabled m checksumID assetName) ∧
      ((∃ file, (verifyChecksum env checksums pkg assetName body).result = .ok file)
        ↔ calculatedSum =
            expectedChecksum checksums pkg.PackageInfo.ChecksumEnabled m checksumID assetName) ∧
      ∀ id value, VerifyEvent.setCalculated id value ∉
        (verifyChecksum env checksums pkg assetName body).trace) := by
  obtain ⟨tempFile, heq⟩ := verifyChecksum_eq_tail env checksums pkg assetName body
    calculatedSum checksumID m h
  -- the condition of the claim is emptiness of the expected value
  have hcond : (checksums.Get checksumID = "" ∧
        (pkg.PackageInfo.ChecksumEnabled = false ∨ (mapGet m assetName).getD "" = "")) ↔
      expectedChecksum checksums pkg.PackageInfo.ChecksumEnabled m checksumID assetName = "" := by
    unfold expectedChecksum
    by_cases hg : checksums.Get checksumID = ""
    · cases hen : pkg.PackageInfo.ChecksumEnabled
      · simp [hg]
      · cases hm : mapGet m assetName <;> simp [hg]
    · simp [hg]
  -- ledger and trace before the tail
  obtain ⟨cs, tr, htail, htr⟩ : ∃ cs tr,
      verifyChecksum env checksums pkg assetName body =
        verifyTail env tempFile checksumID calculatedSum
          (expectedChecksum checksums pkg.PackageInfo.ChecksumEnabled m checksumID assetName)
          cs tr ∧ ∀ id value, VerifyEvent.setCalculated id value ∉ tr := by
    by_cases hf : checksums.Get checksumID = "" ∧ pkg.PackageInfo.ChecksumEnabled = true
    · rw [if_pos hf] at heq
      refine ⟨_, _, heq, ?_⟩
      intro id value hmem
      rcases manifestLoop_trace _ _ _ _ _ hmem with h1 | ⟨i, v, h1⟩
      · simp at h1
      · cases h1
    · rw [if_neg hf] at heq
      exact ⟨_, _, heq, by simp⟩
  have heff := verifyTail_effects env tempFile checksumID calculatedSum
    (expectedChecksum checksums pkg.PackageInfo.ChecksumEnabled m checksumID assetName) cs tr
  have hres := verifyTail_result env tempFile checksumID calculatedSum
    (expectedChecksum checksums pkg.PackageInfo.ChecksumEnabled m checksumID assetName) cs tr
  rw [htail]
  by_cases he : expectedChecksum checksums pkg.PackageInfo.ChecksumEnabled m checksumID
      assetName = ""
  · obtain ⟨hcs, htrace⟩ := heff.1 he
    refine ⟨?_, ?_, fun hne => absurd he hne⟩
    · rw [hcond]
      exact ⟨fun _ => he, fun _ => ⟨checksumID, calculatedSum, by rw [htrace]; simp⟩⟩
    · intro _
      exact ⟨⟨tr, htrace⟩, by rw [hcs]; exact Checksums.Get_Set_same _ _ _⟩
  · obtain ⟨hcs, htrace⟩ := heff.2 he
    have hnone : ∀ id value, VerifyEvent.setCalculated id value ∉
        (verifyTail env tempFile checksumID calculatedSum
          (expectedChecksum checksums pkg.PackageInfo.ChecksumEnabled m checksumID assetName)
          cs tr).trace := by
      rw [htrace]; exact htr
    refine ⟨?_, ?_, fun _ => ⟨?_, ?_, hnone⟩⟩
    · rw [hcond]
      exact ⟨fun ⟨id, value, hmem⟩ => absurd hmem (hnone id value), fun h0 => absurd h0 he⟩
    · rintro ⟨id, value, hmem⟩
      exact absurd hmem (hnone id value)
    · rw [hres]
      by_cases hd : calculatedSum =
          expectedChecksum checksums pkg.PackageInfo.ChecksumEnabled m checksumID assetName
      · simp [he, hd, hopen]
      · simp [he, hd]
    · rw [hres]
      by_cases hd : calculatedSum =
          expectedChecksum checksums pkg.PackageInfo.ChecksumEnabled m checksumID assetName
      · simp [he, hd, hopen]
      · simp [he, hd]

/-- Witness of C2: with an empty ledger and a manifest that does not cover the
asset, the final write of the digest happens. -/
theorem verifyChecksum_trust_on_first_use_witness :
    StepsSucceed demoEnvNotCovered [] demoPkg "bytes" "deadbeef"
      "github_release/github.com/cli/cli/v2.0.0/gh.tar.gz" [("gh.zip", "0badf00d")] ∧
    demoEnvNotCovered.openFile = true ∧
    ∃ id value, VerifyEvent.setCalculated id value ∈
      (verifyChecksum demoEnvNotCovered [] demoPkg "gh.tar.gz" "bytes").trace :=
  ⟨⟨rfl, rfl, rfl, rfl, rfl, fun _ _ => ⟨rfl, _, rfl, rfl⟩⟩, rfl,
    (verifyChecksum_trust_on_first_use demoEnvNotCovered [] demoPkg "gh.tar.gz" "bytes"
      "deadbeef" "github_release/github.com/cli/cli/v2.0.0/gh.tar.gz" [("gh.zip", "0badf00d")]
      ⟨rfl, rfl, rfl, rfl, rfl, fun _ _ => ⟨rfl, _, rfl, rfl⟩⟩ rfl).1.mpr
      ⟨by decide, Or.inr (by decide)⟩⟩

/-- C4 as stated fails: with an empty ledger, an enabled policy and a release
whose manifest `DownloadChecksum` cannot provide, `verifyChecksum` returns the
download error, not a handle, and writes nothing into the ledger. -/
theorem verifyChecksum_missing_manifest_counterexample :
    Checksums.Get [] "github_release/github.com/cli/cli/v2.0.0/gh.tar.gz" = "" ∧
    demoPkg.PackageInfo.ChecksumEnabled = true ∧
    demoEnvNoManifest.downloadChecksum = false ∧
    (verifyChecksum demoEnvNoManifest [] demoPkg "gh.tar.gz" "bytes").result
      = .error .downloadChecksum ∧
    (verifyChecksum demoEnvNoManifest [] demoPkg "gh.tar.gz" "bytes").checksums = [] ∧
    ¬ ((∃ file, (verifyChecksum demoEnvNoManifest [] demoPkg "gh.tar.gz" "bytes").result
          = .ok file) ∧
        (verifyChecksum demoEnvNoManifest [] demoPkg "gh.tar.gz" "bytes").checksums.Get
          "github_release/github.com/cli/cli/v2.0.0/gh.tar.gz" = "deadbeef") := by
  refine ⟨by decide, rfl, rfl, rfl, rfl, ?_⟩
  rintro ⟨⟨file, hfile⟩, -⟩
  cases hfile

/-- C4, amended: when the ledger has no value for the artifact's ChecksumID, the
checksum policy is enabled and `DownloadChecksum` fails, `verifyChecksum`
returns the error of the download, and the ledger is left as it was: the only
effect is the download attempt. -/
theorem verifyChecksum_download_failure (env : VerifyEnv) (checksums : Checksums)
    (pkg : Package) (assetName body calculatedSum checksumID : String)
    (htd : env.tempDir.isSome = true) (hcr : env.create = true) (hcp : env.copy = true)
    (hcalc : env.calculate body pkg.PackageInfo.ChecksumAlgorithm = some calculatedSum)
    (hid : env.getChecksumID = some checksumID)
    (hempty : checksums.Get checksumID = "")
    (henabled : pkg.PackageInfo.ChecksumEnabled = true)
    (hmissing : env.downloadChecksum = false) :
    (verifyChecksum env checksums pkg assetName body).result = .error .downloadChecksum ∧
    (verifyChecksum env checksums pkg assetName body).checksums = checksums ∧
    (verifyChecksum env checksums pkg assetName body).trace
      = [VerifyEvent.downloadChecksum] := by
  obtain ⟨tempDir, htd⟩ := Option.isSome_iff_exists.mp htd
  unfold verifyChecksum
  simp [htd, hcr, hcp, hcalc, hid, hempty, henabled, hmissing]

/-- Witness of the amended C4 on the release without a manifest. -/
theorem verifyChecksum_download_failure_witness :
    (verifyChecksum demoEnvNoManifest [] demoPkg "gh.tar.gz" "bytes").result
      = .error .downloadChecksum ∧
    (verifyChecksum demoEnvNoManifest [] demoPkg "gh.tar.gz" "bytes").checksums = [] ∧
    (verifyChecksum demoEnvNoManifest [] demoPkg "gh.tar.gz" "bytes").trace
      = [VerifyEvent.downloadChecksum] :=
  verifyChecksum_download_failure demoEnvNoManifest [] demoPkg "gh.tar.gz" "bytes" "deadbeef"
    "github_release/github.com/cli/cli/v2.0.0/gh.tar.gz" rfl rfl rfl rfl rfl (by decide) rfl rfl

/-- C10: whenever `verifyChecksum` returns a handle, the ledger holds the
computed digest under the artifact's ChecksumID, provided the parsed manifest
(a Go map: its filenames are pairwise distinct) gives no two filenames the same
ID and, when it covers the asset name, gives the asset name the ID of
`GetChecksumID`. No success of the derivation on other filenames is needed. -/
theorem verifyChecksum_ok_ledger (env : VerifyEnv) (checksums : Checksums) (pkg : Package)
    (assetName body calculatedSum checksumID : String) (file : TempFile)
    (hcalc : env.calculate body pkg.PackageInfo.ChecksumAlgorithm = some calculatedSum)
    (hid : env.getChecksumID = some checksumID)
    (hmanifest : ManifestIDsAgree env assetName checksumID)
    (hok : (verifyChecksum env checksums pkg assetName body).result = .ok file) :
    (verifyChecksum env checksums pkg assetName body).checksums.Get checksumID
      = calculatedSum := by
  -- what the tail leaves under the artifact's ID when it returns a handle
  have htail : ∀ (tempFile : TempFile) (chksum : String) (cs : Checksums)
      (tr : List VerifyEvent),
      (chksum ≠ "" → cs.Get checksumID = chksum) →
      (verifyTail env tempFile checksumID calculatedSum chksum cs tr).result = .ok file →
      (verifyTail env tempFile checksumID calculatedSum chksum cs tr).checksums.Get checksumID
        = calculatedSum := by
    intro tempFile chksum cs tr hcs hres
    have heff := verifyTail_effects env tempFile checksumID calculatedSum chksum cs tr
    rw [verifyTail_result] at hres
    by_cases he : chksum = ""
    · rw [(heff.1 he).1]
      exact Checksums.Get_Set_same _ _ _
    · rw [(heff.2 he).1, hcs he]
      by_cases hd : calculatedSum = chksum
      · exact hd.symm
      · rw [if_pos ⟨he, hd⟩] at hres
        cases hres
  revert hok
  unfold verifyChecksum
  cases htd : env.tempDir with
  | none => intro hok; cases hok
  | some tempDir =>
    by_cases hcr : env.create = true
    · by_cases hcp : env.copy = true
      · simp only [hcr, hcp, hcalc, hid, not_true_eq_false, if_false]
        by_cases hf : checksums.Get checksumID = "" ∧ pkg.PackageInfo.ChecksumEnabled = true
        · rw [if_pos hf]
          by_cases hdl : env.downloadChecksum = true
          · simp only [hdl, not_true_eq_false, if_false]
            cases hrd : env.readAll with
            | none => intro hok; cases hok
            | some b =>
              dsimp only
              cases hps : env.parseChecksumFile b with
              | none => intro hok; cases hok
              | some m =>
                dsimp only
                obtain ⟨hnodup, hinj, hasset⟩ := hmanifest b m hrd hps
                apply htail
                intro hne
                cases hget : mapGet m assetName with
                | none => simp [hget, hf.1] at hne
                | some c =>
                  have hmem : assetName ∈ m.map Prod.fst := by
                    clear hnodup hinj hasset hps hne
                    induction m with
                    | nil => simp [mapGet] at hget
                    | cons p rest ih =>
                      obtain ⟨k, v⟩ := p
                      by_cases hk : k = assetName
                      · simp [hk]
                      · simp only [mapGet, hk, if_false] at hget
                        simp [ih hget]
                  exact manifestLoop_get_covered _ assetName checksumID c m hnodup hinj hget
                    (hasset hmem) _ _
          · simp only [hdl]
            intro hok
            simp at hok
        · rw [if_neg hf]
          apply htail
          intro _
          rfl
      · simp only [hcr, hcp, not_true_eq_false, if_false, not_false_eq_true, if_true]
        intro hok; cases hok
    · simp only [hcr, not_false_eq_true, if_true]
      intro hok; cases hok

/-- The derivation assumptions hold for the manifest that lists the computed
digest. -/
theorem demoEnvMatching_ids :
    ManifestIDsAgree demoEnvMatching "gh.tar.gz"
      "github_release/github.com/cli/cli/v2.0.0/gh.tar.gz" := by
  intro b m _ hps
  have hm : m = [("gh.tar.gz", "deadbeef"), ("gh.zip", "0badf00d")] := by
    have : some [("gh.tar.gz", "deadbeef"), ("gh.zip", "0badf00d")] = some m := hps
    exact (Option.some.inj this).symm
  subst hm
  have hdiff : demoID "gh.tar.gz" ≠ demoID "gh.zip" := by decide
  refine ⟨by decide, ?_, fun _ => rfl⟩
  intro f hf g hg i hfi hgi
  have hf2 : f = "gh.tar.gz" ∨ f = "gh.zip" := by simpa using hf
  have hg2 : g = "gh.tar.gz" ∨ g = "gh.zip" := by simpa using hg
  have hfg : demoID f = demoID g := hfi.trans hgi.symm
  rcases hf2 with rfl | rfl <;> rcases hg2 with rfl | rfl
  · rfl
  · exact absurd hfg hdiff
  · exact absurd hfg.symm hdiff
  · rfl

/-- Witness of C10 on the manifest path: the manifest lists the computed digest
for the asset, a handle is returned, and the ledger holds the digest. -/
theorem verifyChecksum_ok_ledger_witness :
    demoEnvMatching.calculate "bytes" demoPkg.PackageInfo.ChecksumAlgorithm = some "deadbeef" ∧
    demoEnvMatching.getChecksumID = some "github_release/github.com/cli/cli/v2.0.0/gh.tar.gz" ∧
    ManifestIDsAgree demoEnvMatching "gh.tar.gz"
      "github_release/github.com/cli/cli/v2.0.0/gh.tar.gz" ∧
    (verifyChecksum demoEnvMatching [] demoPkg "gh.tar.gz" "bytes").result
      = .ok ⟨"/tmp/1", "gh.tar.gz"⟩ ∧
    (verifyChecksum demoEnvMatching [] demoPkg "gh.tar.gz" "bytes").checksums.Get
      "github_release/github.com/cli/cli/v2.0.0/gh.tar.gz" = "deadbeef" :=
  ⟨rfl, rfl, demoEnvMatching_ids, rfl,
    verifyChecksum_ok_ledger demoEnvMatching [] demoPkg "gh.tar.gz" "bytes" "deadbeef"
      "github_release/github.com/cli/cli/v2.0.0/gh.tar.gz" ⟨"/tmp/1", "gh.tar.gz"⟩
      rfl rfl demoEnvMatching_ids rfl⟩

/-! ## `generate`: cutting identifiers -/

/-- A one-character separator that does not occur is not found. -/
theorem cutChars_not_mem (c : Char) (l : List Char) (h : c ∉ l) : cutChars [c] l = none := by
  induction l with
  | nil => simp [cutChars]
  | cons x xs ih =>
    have hx : ¬ c = x := fun e => h (by simp [e])
    have hxs : c ∉ xs := fun e => h (by simp [e])
    simp [cutChars, hx, ih hxs]

/-- The cut at the first occurrence of a one-character separator. -/
theorem cutChars_first (c : Char) (before after : List Char) (h : c ∉ before) :
    cutChars [c] (before ++ c :: after) = some (before, after) := by
  induction before with
  | nil => simp [cutChars]
  | cons x xs ih =>
    have hx : ¬ c = x := fun e => h (by simp [e])
    have hxs : c ∉ xs := fun e => h (by simp [e])
    simp [cutChars, hx, ih hxs]

theorem stringsContains_comma_false (s : String) (h : ',' ∉ s.data) :
    stringsContains s "," = false := by
  have hd : (",".data : List Char) = [','] := rfl
  simp [stringsContains, hd, cutChars_not_mem _ _ h]

/-- A one-character separator that occurs is found. -/
theorem cutChars_mem (c : Char) (l : List Char) (h : c ∈ l) : (cutChars [c] l).isSome = true := by
  induction l with
  | nil => simp at h
  | cons x xs ih =>
    by_cases hx : c = x
    · simp [cutChars, hx]
    · have hxs : c ∈ xs := by
        rcases List.mem_cons.mp h with e | e
        · exact absurd e hx
        · exact e
      have := ih hxs
      simp only [cutChars, List.cons_prefix_cons, hx, false_and, if_false]
      cases hc : cutChars [c] xs with
      | none => simp [hc] at this
      | some p => simp

theorem stringsContains_comma_true (s : String) (h : ',' ∈ s.data) :
    stringsContains s "," = true := by
  have hd : (",".data : List Char) = [','] := rfl
  simp only [stringsContains, hd]
  exact cutChars_mem _ _ h

/-- The cut of `before@after` when `before` holds no `@`. -/
theorem stringsCut_at_some (before after : String) (h : '@' ∉ before.data) :
    stringsCut (before ++ ("@" ++ after)) "@" = (before, after, true) := by
  have hd : ("@".data : List Char) = ['@'] := rfl
  have hdata : (before ++ ("@" ++ after)).data = before.data ++ '@' :: after.data := by
    simp [String.data_append, hd]
  simp [stringsCut, hd, hdata, cutChars_first _ _ _ h]

/-- The cut of a string that holds no `@`. -/
theorem stringsCut_at_none (s : String) (h : '@' ∉ s.data) :
    stringsCut s "@" = (s, "", false) := by
  have hd : ("@".data : List Char) = ['@'] := rfl
  simp [stringsCut, hd, cutChars_not_mem _ _ h]

/-- The key and the version that the loop of `listPkgsWithoutFinder` cuts out of
an identifier in an accepted form, when a version given without a registry
holds no comma. -/
theorem identifier_cut (registry : Option String) (name : String) (version : Option String)
    (hreg : ∀ r, registry = some r → ',' ∉ r.data ∧ '@' ∉ r.data)
    (hname : ',' ∉ name.data ∧ '@' ∉ name.data)
    (hver : registry = none → ∀ v, version = some v → ',' ∉ v.data) :
    stringsCut (getGeneratePkg (identifier registry name version)) "@" =
      (registry.getD "standard" ++ "," ++ name, version.getD "", version.isSome) := by
  have hstd : ("standard" : String) ++ "," = "standard," := by decide
  have hat : ("@".data : List Char) = ['@'] := rfl
  have hcomma : (",".data : List Char) = [','] := rfl
  have hstdAt : '@' ∉ ("standard," : String).data := by decide
  cases registry with
  | none =>
    cases version with
    | none =>
      have hident : identifier none name none = name := by simp [identifier]
      have hgen : getGeneratePkg name = "standard," ++ name := by
        simp [getGeneratePkg, stringsContains_comma_false _ hname.1]
      rw [hident, hgen, stringsCut_at_none]
      · simp [hstd]
      · simp [String.data_append, hname.2, hstdAt]
    | some v =>
      have hident : identifier none name (some v) = name ++ ("@" ++ v) := by simp [identifier]
      have hv : ',' ∉ v.data := hver rfl v rfl
      have hno : ',' ∉ (name ++ ("@" ++ v)).data := by
        simp [String.data_append, hat, hname.1, hv]
      have hgen : getGeneratePkg (name ++ ("@" ++ v)) = ("standard," ++ name) ++ ("@" ++ v) := by
        simp [getGeneratePkg, stringsContains_comma_false _ hno, String.append_assoc]
      rw [hident, hgen, stringsCut_at_some]
      · simp [hstd]
      · simp [String.data_append, hname.2, hstdAt]
  | some r =>
    obtain ⟨-, hrAt⟩ := hreg r rfl
    have hkeyAt : '@' ∉ (r ++ "," ++ name).data := by
      simp [String.data_append, hcomma, hrAt, hname.2]
    cases version with
    | none =>
      have hident : identifier (some r) name none = r ++ "," ++ name := by simp [identifier]
      have hyes : ',' ∈ (r ++ "," ++ name).data := by simp [String.data_append, hcomma]
      have hgen : getGeneratePkg (r ++ "," ++ name) = r ++ "," ++ name := by
        simp [getGeneratePkg, stringsContains_comma_true _ hyes]
      rw [hident, hgen, stringsCut_at_none _ hkeyAt]
      simp
    | some v =>
      have hident : identifier (some r) name (some v) = (r ++ "," ++ name) ++ ("@" ++ v) := by
        simp [identifier]
      have hyes : ',' ∈ ((r ++ "," ++ name) ++ ("@" ++ v)).data := by
        simp [String.data_append, hcomma]
      have hgen : getGeneratePkg ((r ++ "," ++ name) ++ ("@" ++ v))
          = (r ++ "," ++ name) ++ ("@" ++ v) := by
        simp [getGeneratePkg, stringsContains_comma_true _ hyes]
      rw [hident, hgen, stringsCut_at_some _ _ hkeyAt]
      simp

/-- C5, at the failing input: the identifier `foo@1,2` has the accepted form
`name@version` with name `foo` and version `1,2`. Because of the comma in the
version `getGeneratePkg` adds no registry, so the loop looks the package up
under the key `foo`, not `standard,foo`, and in a registry that holds `foo`
under `standard,foo` the batch fails with `errUnknownPkg`; with the registry
spelled out, `standard,foo@1,2` is resolved with version `1,2`. -/
theorem listPkgsWithoutFinder_comma_version :
    identifier none "foo" (some "1,2") = "foo@1,2" ∧
    (',' ∉ ("foo" : String).data ∧ '@' ∉ ("foo" : String).data) ∧
    getGeneratePkg "foo@1,2" = "foo@1,2" ∧
    (stringsCut (getGeneratePkg "foo@1,2") "@").1 = "foo" ∧
    (stringsCut (getGeneratePkg "foo@1,2") "@").1 ≠ "standard" ++ "," ++ "foo" ∧
    (mapGet (setPkgMap fooRegistry []) ("standard" ++ "," ++ "foo")).isSome = true ∧
    listPkgsWithoutFinder noVersion noFile (plainParam true) fooRegistry ["foo@1,2"]
      = .error (.unknownPkg "foo@1,2") ∧
    listPkgsWithoutFinder noVersion noFile (plainParam true) fooRegistry ["standard,foo@1,2"]
      = .ok [{ Name := "foo", Registry := "", Version := "1,2", Link := "",
               Description := "" }] := by
  refine ⟨by decide, by decide, by decide, by decide, by decide, by decide, rfl, rfl⟩

/-- A property of all keys of a map is kept by `mapSet` with such a key. -/
theorem mapSet_keys {α : Type} (P : String → Prop) (m : List (String × α)) (key : String)
    (value : α) (hm : ∀ p ∈ m, P p.1) (hkey : P key) : ∀ p ∈ mapSet m key value, P p.1 := by
  induction m with
  | nil =>
    intro p hp
    have : p = (key, value) := by simpa [mapSet] using hp
    rw [this]; exact hkey
  | cons q rest ih =>
    obtain ⟨k, v⟩ := q
    have hrest : ∀ p ∈ rest, P p.1 := fun p hp => hm p (List.mem_cons_of_mem _ hp)
    have hk : P k := hm (k, v) (List.mem_cons_self _ _)
    intro p hp
    by_cases hkk : k = key
    · simp only [mapSet, hkk, if_true] at hp
      rcases List.mem_cons.mp hp with e | e
      · rw [e]; exact hkey
      · exact hrest p e
    · simp only [mapSet, hkk, if_false] at hp
      rcases List.mem_cons.mp hp with e | e
      · rw [e]; exact hk
      · exact ih hrest p e

/-- A key that is not in the map is not found. -/
theorem mapGet_none {α : Type} (m : List (String × α)) (key : String)
    (hm : ∀ p ∈ m, p.1 ≠ key) : mapGet m key = none := by
  induction m with
  | nil => rfl
  | cons q rest ih =>
    obtain ⟨k, v⟩ := q
    have hk : ¬ k = key := hm (k, v) (List.mem_cons_self _ _)
    simp only [mapGet, hk, if_false]
    exact ih (fun p hp => hm p (List.mem_cons_of_mem _ hp))

/-- A key of the form `registry,name` holds a comma. -/
theorem registryKey_comma (registryName name : String) :
    ',' ∈ (registryName ++ "," ++ name).data := by
  simp [String.data_append, show (",".data : List Char) = [','] from rfl]

/-- Every key that `setAliases` adds holds a comma. -/
theorem setAliases_keys (registryName : String) (pkg : PackageInfo) (aliases : List String) :
    ∀ m : PkgMap, (∀ p ∈ m, ',' ∈ p.1.data) →
      ∀ p ∈ setAliases registryName pkg aliases m, ',' ∈ p.1.data := by
  induction aliases with
  | nil => intro m hm; simpa [setAliases] using hm
  | cons a rest ih =>
    intro m hm
    by_cases ha : a = ""
    · simp only [setAliases, ha, if_true]
      exact ih m hm
    · simp only [setAliases, ha, if_false]
      exact ih _ (mapSet_keys (fun k => ',' ∈ k.data) m _ _ hm (registryKey_comma _ _))

/-- Every key that `setRegistryPkgs` adds holds a comma. -/
theorem setRegistryPkgs_keys (registryName : String) (pkgs : List (String × PackageInfo)) :
    ∀ m : PkgMap, (∀ p ∈ m, ',' ∈ p.1.data) →
      ∀ p ∈ setRegistryPkgs registryName pkgs m, ',' ∈ p.1.data := by
  induction pkgs with
  | nil => intro m hm; simpa [setRegistryPkgs] using hm
  | cons q rest ih =>
    intro m hm
    obtain ⟨pkgName, pkg⟩ := q
    simp only [setRegistryPkgs]
    exact ih _ (setAliases_keys _ _ _ _
      (mapSet_keys (fun k => ',' ∈ k.data) m _ _ hm (registryKey_comma _ _)))

/-- Every key of the map that `setPkgMap` builds holds a comma. -/
theorem setPkgMap_keys (registryContents : List (String × List (String × PackageInfo))) :
    ∀ m : PkgMap, (∀ p ∈ m, ',' ∈ p.1.data) →
      ∀ p ∈ setPkgMap registryContents m, ',' ∈ p.1.data := by
  induction registryContents with
  | nil => intro m hm; simpa [setPkgMap] using hm
  | cons q rest ih =>
    intro m hm
    obtain ⟨registryName, registryContent⟩ := q
    simp only [setPkgMap]
    exact ih _ (setRegistryPkgs_keys _ _ _ hm)

/-- The defect behind the failing input of C5, in general: whatever the
registries hold, an identifier `name@version` whose version holds a comma is
looked up under the bare `name`, a key that `setPkgMap` never builds, and the
batch fails with `errUnknownPkg`. -/
theorem listPkgsWithoutFinder_comma_version_unknown (fuzzyGetter : VersionGetter)
    (readGeneratedPkgsFromFile : List AquaPackage → PkgMap → Except String (List AquaPackage))
    (param : Param) (registryContents : List (String × List (String × PackageInfo)))
    (name version : String) (rest : List String)
    (hname : ',' ∉ name.data ∧ '@' ∉ name.data) (hversion : ',' ∈ version.data) :
    listPkgsWithoutFinder fuzzyGetter readGeneratedPkgsFromFile param registryContents
        (identifier none name (some version) :: rest) =
      .error (.unknownPkg (identifier none name (some version))) := by
  have hat : ("@".data : List Char) = ['@'] := rfl
  have hident : identifier none name (some version) = name ++ ("@" ++ version) := by
    simp [identifier]
  have hyes : ',' ∈ (name ++ ("@" ++ version)).data := by
    simp [String.data_append, hversion]
  have hgen : getGeneratePkg (name ++ ("@" ++ version)) = name ++ ("@" ++ version) := by
    simp [getGeneratePkg, stringsContains_comma_true _ hyes]
  have hcut := stringsCut_at_some name version hname.2
  have hnone : mapGet (setPkgMap registryContents []) name = none := by
    apply mapGet_none
    intro p hp hkey
    have := setPkgMap_keys registryContents [] (by simp) p hp
    rw [hkey] at this
    exact hname.1 this
  have hloop : listLoop fuzzyGetter param (setPkgMap registryContents [])
      ((name ++ ("@" ++ version)) :: rest) [] =
        .error (.unknownPkg (name ++ ("@" ++ version))) := by
    rw [listLoop]
    simp only [hgen, hcut, hnone]
  unfold listPkgsWithoutFinder
  simp only [hident, hloop]

/-- The identifiers in an accepted form whose version, when no registry is
given, holds no comma: the loop of `listPkgsWithoutFinder` looks the package up
under `R,name` (`R` the given registry, or `standard`), fails with
`errUnknownPkg` when the key is absent, and otherwise requests the text after
the first `@` (empty when there is none) as version; and
`getGeneratePkg "ripgrep"` is `standard,ripgrep`. -/
theorem listPkgsWithoutFinder_identifier (fuzzyGetter : VersionGetter) (param : Param)
    (registry : Option String) (name : String) (version : Option String)
    (hreg : ∀ r, registry = some r → ',' ∉ r.data ∧ '@' ∉ r.data)
    (hname : ',' ∉ name.data ∧ '@' ∉ name.data)
    (hver : registry = none → ∀ v, version = some v → ',' ∉ v.data) :
    getGeneratePkg "ripgrep" = "standard,ripgrep" ∧
    ∀ (m : PkgMap) (rest : List String) (outputPkgs : List AquaPackage),
      listLoop fuzzyGetter param m (identifier registry name version :: rest) outputPkgs =
        match mapGet m (registry.getD "standard" ++ "," ++ name) with
        | none => .error (.unknownPkg (getGeneratePkg (identifier registry name version)))
        | some findingPkg =>
          listLoop fuzzyGetter param
            (mapSet m (registry.getD "standard" ++ "," ++ name)
              { findingPkg with Version := version.getD "" })
            rest
            (outputPkgs ++
              [getOutputtedPkg fuzzyGetter param
                { findingPkg with Version := version.getD "" }]) := by
  refine ⟨by decide, ?_⟩
  intro m rest outputPkgs
  have hcut := identifier_cut registry name version hreg hname hver
  rw [listLoop]
  simp only [hcut]

/-- The identifier `aqua-registry,cli/cli@v2.0.0`, in a map that holds the
package: the key is `aqua-registry,cli/cli`, the version `v2.0.0`. -/
theorem listPkgsWithoutFinder_identifier_example :
    (',' ∉ ("cli/cli" : String).data ∧ '@' ∉ ("cli/cli" : String).data) ∧
    listLoop noVersion (plainParam true)
        [("aqua-registry,cli/cli", ⟨demoPkg.PackageInfo, "aqua-registry", ""⟩)]
        [identifier (some "aqua-registry") "cli/cli" (some "v2.0.0")] [] =
      .ok ([{ Name := "cli/cli", Registry := "aqua-registry", Version := "v2.0.0", Link := "",
              Description := "" }],
        [("aqua-registry,cli/cli", ⟨demoPkg.PackageInfo, "aqua-registry", "v2.0.0"⟩)]) :=
  ⟨by decide,
    ((listPkgsWithoutFinder_identifier noVersion (plainParam true) (some "aqua-registry")
      "cli/cli" (some "v2.0.0")
      (fun r hr => by cases hr; decide) (by decide) (fun hr => by cases hr)).2
      [("aqua-registry,cli/cli", ⟨demoPkg.PackageInfo, "aqua-registry", ""⟩)] [] []).trans rfl⟩

/-! ## `getOutputtedPkg` -/

/-- C6: for a package with canonical name `n` whose version `v` (the one
supplied, or else the one the latest-version collaborator returns) is
non-empty, `getOutputtedPkg` returns `Name = n@v` and `Version = ""` with
`Pin = false`, and `Name = n` and `Version = v` with `Pin = true`; the
identifier `foo@1.2.3` gives `foo@1.2.3` with an empty version when `Pin` is
false and `foo` with version `1.2.3` when `Pin` is true. -/
theorem getOutputtedPkg_version (fuzzyGetter : VersionGetter) (param : Param)
    (pkg : FuzzyPackage)
    (hv : (if pkg.Version = "" then
        fuzzyGetter pkg.PackageInfo "" param.SelectVersion param.Limit
      else pkg.Version) ≠ "") :
    (param.Pin = false →
      (getOutputtedPkg fuzzyGetter param pkg).Name =
        pkg.PackageInfo.Name ++ "@" ++
          (if pkg.Version = "" then
            fuzzyGetter pkg.PackageInfo "" param.SelectVersion param.Limit
          else pkg.Version) ∧
      (getOutputtedPkg fuzzyGetter param pkg).Version = "") ∧
    (param.Pin = true →
      (getOutputtedPkg fuzzyGetter param pkg).Name = pkg.PackageInfo.Name ∧
      (getOutputtedPkg fuzzyGetter param pkg).Version =
        (if pkg.Version = "" then
          fuzzyGetter pkg.PackageInfo "" param.SelectVersion param.Limit
        else pkg.Version)) ∧
    listPkgsWithoutFinder fuzzyGetter noFile (plainParam false) fooRegistry ["foo@1.2.3"] =
      .ok [{ Name := "foo@1.2.3", Registry := "", Version := "", Link := "",
             Description := "" }] ∧
    listPkgsWithoutFinder fuzzyGetter noFile (plainParam true) fooRegistry ["foo@1.2.3"] =
      .ok [{ Name := "foo", Registry := "", Version := "1.2.3", Link := "",
             Description := "" }] := by
  refine ⟨?_, ?_, rfl, rfl⟩
  · intro hpin
    unfold getOutputtedPkg outputVersion
    by_cases hver : pkg.Version = ""
    · simp only [hver, if_true] at hv
      by_cases hd : param.Detail = true <;>
        by_cases hr : pkg.RegistryName = registryStandard <;> simp [hver, hv, hpin, hd, hr]
    · by_cases hd : param.Detail = true <;>
        by_cases hr : pkg.RegistryName = registryStandard <;> simp [hver, hpin, hd, hr]
  · intro hpin
    unfold getOutputtedPkg outputVersion
    by_cases hver : pkg.Version = ""
    · simp only [hver, if_true] at hv
      by_cases hd : param.Detail = true <;>
        by_cases hr : pkg.RegistryName = registryStandard <;> simp [hver, hv, hpin, hd, hr]
    · by_cases hd : param.Detail = true <;>
        by_cases hr : pkg.RegistryName = registryStandard <;> simp [hver, hpin, hd, hr]

/-- Witness of C6: no version supplied, the collaborator answers `v9.9.9`, and
the unpinned entry is `cli/cli@v9.9.9` with an empty version. -/
theorem getOutputtedPkg_version_witness :
    (if (⟨demoPkg.PackageInfo, "standard", ""⟩ : FuzzyPackage).Version = "" then
        latestVersion demoPkg.PackageInfo "" (plainParam false).SelectVersion
          (plainParam false).Limit
      else (⟨demoPkg.PackageInfo, "standard", ""⟩ : FuzzyPackage).Version) ≠ "" ∧
    (getOutputtedPkg latestVersion (plainParam false) ⟨demoPkg.PackageInfo, "standard", ""⟩).Name
      = "cli/cli@v9.9.9" ∧
    (getOutputtedPkg latestVersion (plainParam false)
      ⟨demoPkg.PackageInfo, "standard", ""⟩).Version = "" :=
  ⟨by decide,
    (getOutputtedPkg_version latestVersion (plainParam false)
      ⟨demoPkg.PackageInfo, "standard", ""⟩ (by decide)).1 rfl⟩

/-- One iteration of the loop of `listPkgsWithoutFinder`. -/
theorem listLoop_cons (fuzzyGetter : VersionGetter) (param : Param) (m : PkgMap)
    (pkgName : String) (rest : List String) (outputPkgs : List AquaPackage) :
    listLoop fuzzyGetter param m (pkgName :: rest) outputPkgs =
      match mapGet m (stringsCut (getGeneratePkg pkgName) "@").1 with
      | none => .error (.unknownPkg (getGeneratePkg pkgName))
      | some findingPkg =>
        listLoop fuzzyGetter param
          (mapSet m (stringsCut (getGeneratePkg pkgName) "@").1
            { findingPkg with Version := (stringsCut (getGeneratePkg pkgName) "@").2.1 })
          rest
          (outputPkgs ++ [getOutputtedPkg fuzzyGetter param
            { findingPkg with Version := (stringsCut (getGeneratePkg pkgName) "@").2.1 }]) := by
  rw [listLoop]

/-- Writing a version back into the map keeps it the same up to versions. -/
theorem SameUpToVersion.mapSet (m0 m : PkgMap) (key version : String) (pkg : FuzzyPackage)
    (hsame : SameUpToVersion m0 m) (hget : mapGet m key = some pkg) :
    SameUpToVersion m0 (mapSet m key { pkg with Version := version }) := by
  intro k
  by_cases hk : k = key
  · subst hk
    rw [mapGet_mapSet_same, hsame k, hget]
    rfl
  · rw [mapGet_mapSet_other _ _ _ _ hk]
    exact hsame k

/-- The entry of an identifier does not depend on the versions in the map. -/
theorem resolveIdentifier_same (fuzzyGetter : VersionGetter) (param : Param) (m0 m : PkgMap)
    (pkgName : String) (hsame : SameUpToVersion m0 m) :
    resolveIdentifier fuzzyGetter param m pkgName =
      resolveIdentifier fuzzyGetter param m0 pkgName := by
  have h := hsame (stringsCut (getGeneratePkg pkgName) "@").1
  unfold resolveIdentifier
  cases hm : mapGet m (stringsCut (getGeneratePkg pkgName) "@").1 with
  | none =>
    rw [hm] at h
    cases hm0 : mapGet m0 (stringsCut (getGeneratePkg pkgName) "@").1 with
    | none => rfl
    | some p0 => rw [hm0] at h; simp at h
  | some p =>
    rw [hm] at h
    cases hm0 : mapGet m0 (stringsCut (getGeneratePkg pkgName) "@").1 with
    | none => rw [hm0] at h; simp at h
    | some p0 =>
      rw [hm0] at h
      have hp : p0.PackageInfo = p.PackageInfo ∧ p0.RegistryName = p.RegistryName := by
        simpa using h
      obtain ⟨info, reg, ver⟩ := p
      obtain ⟨info0, reg0, ver0⟩ := p0
      simp only at hp
      obtain ⟨rfl, rfl⟩ := hp
      rfl

/-- The loop of `listPkgsWithoutFinder` on a batch all of whose identifiers are
found: it fails on none of them and appends one entry per identifier, in
order, each the entry of its identifier in the map the loop started from. -/
theorem listLoop_ok (fuzzyGetter : VersionGetter) (param : Param) (m0 : PkgMap) :
    ∀ (pkgNames : List String) (m : PkgMap) (outputPkgs : List AquaPackage),
      SameUpToVersion m0 m →
      (∀ n ∈ pkgNames, (resolveIdentifier fuzzyGetter param m0 n).isSome = true) →
      ∃ m2, SameUpToVersion m0 m2 ∧
        listLoop fuzzyGetter param m pkgNames outputPkgs =
          .ok (outputPkgs ++ pkgNames.filterMap (resolveIdentifier fuzzyGetter param m0), m2) := by
  intro pkgNames
  induction pkgNames with
  | nil =>
    intro m outputPkgs hsame _
    exact ⟨m, hsame, by simp [listLoop]⟩
  | cons n rest ih =>
    intro m outputPkgs hsame hall
    have hn := hall n (List.mem_cons_self _ _)
    have hrest : ∀ k ∈ rest, (resolveIdentifier fuzzyGetter param m0 k).isSome = true :=
      fun k hk => hall k (List.mem_cons_of_mem _ hk)
    have hres := resolveIdentifier_same fuzzyGetter param m0 m n hsame
    rw [listLoop_cons]
    cases hm : mapGet m (stringsCut (getGeneratePkg n) "@").1 with
    | none =>
      rw [← hres] at hn
      simp [resolveIdentifier, hm] at hn
    | some p =>
      have hentry : resolveIdentifier fuzzyGetter param m0 n =
          some (getOutputtedPkg fuzzyGetter param
            { p with Version := (stringsCut (getGeneratePkg n) "@").2.1 }) := by
        rw [← hres]
        simp [resolveIdentifier, hm]
      obtain ⟨m2, hsame2, hloop⟩ := ih _
        (outputPkgs ++ [getOutputtedPkg fuzzyGetter param
          { p with Version := (stringsCut (getGeneratePkg n) "@").2.1 }])
        (SameUpToVersion.mapSet m0 m _ (stringsCut (getGeneratePkg n) "@").2.1 p hsame hm) hrest
      refine ⟨m2, hsame2, ?_⟩
      simp only [hloop, List.filterMap_cons, hentry, List.append_assoc, List.singleton_append]

/-- C7: when no version is supplied for a package and the latest-version
collaborator returns the empty string, `getOutputtedPkg` returns, whatever the
`Pin` flag, an entry whose `Version` is `[SET PACKAGE VERSION]` and whose `Name`
is the bare canonical name; and `listPkgsWithoutFinder` does not fail the batch
on it: when the other identifiers of the batch are found as well, the loop
yields, in order, the entries of the identifiers before it, the placeholder
entry, and the entries of the identifiers after it, and this list is what
`listPkgsWithoutFinder` returns (or hands to `readGeneratedPkgsFromFile` when
a file is given). -/
theorem getOutputtedPkg_placeholder (fuzzyGetter : VersionGetter)
    (readGeneratedPkgsFromFile : List AquaPackage → PkgMap → Except String (List AquaPackage))
    (param : Param) (registryContents : List (String × List (String × PackageInfo)))
    (before after : List String) (pkgName : String) (findingPkg pkg : FuzzyPackage)
    (hfound : mapGet (setPkgMap registryContents [])
      (stringsCut (getGeneratePkg pkgName) "@").1 = some findingPkg)
    (hpkg : { findingPkg with Version := (stringsCut (getGeneratePkg pkgName) "@").2.1 } = pkg)
    (hver : pkg.Version = "")
    (hget : fuzzyGetter pkg.PackageInfo "" param.SelectVersion param.Limit = "")
    (hothers : ∀ n ∈ before ++ after,
      (resolveIdentifier fuzzyGetter param (setPkgMap registryContents []) n).isSome = true) :
    (getOutputtedPkg fuzzyGetter param pkg).Version = "[SET PACKAGE VERSION]" ∧
    (getOutputtedPkg fuzzyGetter param pkg).Name = pkg.PackageInfo.Name ∧
    ∃ (placeholder : AquaPackage) (m2 : PkgMap),
      placeholder = getOutputtedPkg fuzzyGetter param pkg ∧
      placeholder.Version = "[SET PACKAGE VERSION]" ∧
      placeholder.Name = pkg.PackageInfo.Name ∧
      listPkgsWithoutFinder fuzzyGetter readGeneratedPkgsFromFile param registryContents
          (before ++ pkgName :: after) =
        (if param.File ≠ "" then
          match readGeneratedPkgsFromFile
            (before.filterMap
                (resolveIdentifier fuzzyGetter param (setPkgMap registryContents [])) ++
              placeholder ::
              after.filterMap
                (resolveIdentifier fuzzyGetter param (setPkgMap registryContents []))) m2 with
          | .error e => .error (.readFile e)
          | .ok pkgs => .ok pkgs
        else
          .ok (before.filterMap
                (resolveIdentifier fuzzyGetter param (setPkgMap registryContents [])) ++
              placeholder ::
              after.filterMap
                (resolveIdentifier fuzzyGetter param (setPkgMap registryContents [])))) := by
  have hversion : (getOutputtedPkg fuzzyGetter param pkg).Version = "[SET PACKAGE VERSION]" := by
    unfold getOutputtedPkg
    by_cases hd : param.Detail = true <;>
      by_cases hr : pkg.RegistryName = registryStandard <;> simp [hver, hget, hd, hr]
  have hname : (getOutputtedPkg fuzzyGetter param pkg).Name = pkg.PackageInfo.Name := by
    unfold getOutputtedPkg
    by_cases hd : param.Detail = true <;>
      by_cases hr : pkg.RegistryName = registryStandard <;> simp [hver, hget, hd, hr]
  refine ⟨hversion, hname, ?_⟩
  have hentry : resolveIdentifier fuzzyGetter param (setPkgMap registryContents []) pkgName =
      some (getOutputtedPkg fuzzyGetter param pkg) := by
    simp [resolveIdentifier, hfound, hpkg]
  have hall : ∀ n ∈ before ++ pkgName :: after,
      (resolveIdentifier fuzzyGetter param (setPkgMap registryContents []) n).isSome = true := by
    intro n hn
    rcases List.mem_append.mp hn with h | h
    · exact hothers n (List.mem_append_left _ h)
    · rcases List.mem_cons.mp h with h | h
      · rw [h, hentry]; rfl
      · exact hothers n (List.mem_append_right _ h)
  obtain ⟨m2, -, hloop⟩ := listLoop_ok fuzzyGetter param (setPkgMap registryContents [])
    (before ++ pkgName :: after) (setPkgMap registryContents []) [] (fun _ => rfl) hall
  refine ⟨getOutputtedPkg fuzzyGetter param pkg, m2, rfl, hversion, hname, ?_⟩
  unfold listPkgsWithoutFinder
  simp only [hloop, List.nil_append, List.filterMap_append, List.filterMap_cons, hentry]

/-- Witness of C7: in the batch `foo@1.2.3`, `foo`, `foo@2.0.0` the second
identifier has no version and none is found; its entry carries the placeholder
and the identifiers around it are resolved. -/
theorem getOutputtedPkg_placeholder_witness :
    (stringsCut (getGeneratePkg "foo") "@").2.1 = "" ∧
    (∀ n ∈ ["foo@1.2.3"] ++ ["foo@2.0.0"],
      (resolveIdentifier noVersion (plainParam true) (setPkgMap fooRegistry []) n).isSome
        = true) ∧
    listPkgsWithoutFinder noVersion noFile (plainParam true) fooRegistry
        ["foo@1.2.3", "foo", "foo@2.0.0"] =
      .ok [{ Name := "foo", Registry := "", Version := "1.2.3", Link := "", Description := "" },
           { Name := "foo", Registry := "", Version := "[SET PACKAGE VERSION]", Link := "",
             Description := "" },
           { Name := "foo", Registry := "", Version := "2.0.0", Link := "",
             Description := "" }] := by
  have hothers : ∀ n ∈ ["foo@1.2.3"] ++ ["foo@2.0.0"],
      (resolveIdentifier noVersion (plainParam true) (setPkgMap fooRegistry []) n).isSome
        = true := by
    intro n hn
    have hn2 : n = "foo@1.2.3" ∨ n = "foo@2.0.0" := by simpa using hn
    rcases hn2 with rfl | rfl <;> rfl
  obtain ⟨placeholder, m2, hp, -, -, hlist⟩ :=
    (getOutputtedPkg_placeholder noVersion noFile (plainParam true) fooRegistry
      ["foo@1.2.3"] ["foo@2.0.0"] "foo"
      ⟨fooInfo, "standard", ""⟩ ⟨fooInfo, "standard", ""⟩ rfl rfl rfl rfl hothers).2.2
  refine ⟨by decide, hothers, ?_⟩
  subst hp
  exact hlist.trans rfl

/-! ## `DedicatedInstaller.install` -/

/-- C8: when the platform predicate, evaluated on the overridden metadata,
reports unsupported without error, `install` returns nil; between taking and
releasing the lock it only resolves the descriptor, so `InstallPackage` is
never called and no checksum is looked up; and the descriptor keeps the
metadata the resolver returned. -/
theorem install_unsupported (di : DedicatedInstaller) (env : InstallEnv)
    (pkgInfo : PackageInfo)
    (hoverride :
      env.Override (di.pkg ()).PackageInfo (di.pkg ()).Package.Version = .ok pkgInfo)
    (hunsupported : env.CheckSupported pkgInfo = .ok false) :
    (install di env).err = none ∧
    (install di env).trace = [InstallEvent.lock, InstallEvent.resolve, InstallEvent.unlock] ∧
    (∀ param, InstallEvent.installPackage param ∉ (install di env).trace) ∧
    (∀ key, InstallEvent.checksumLookup key ∉ (install di env).trace) ∧
    (install di env).pkg = di.pkg () ∧
    (install di env).pkg.PackageInfo = (di.pkg ()).PackageInfo := by
  have hbody : installBody di env = ⟨none, di.pkg (), [InstallEvent.resolve]⟩ := by
    unfold installBody
    simp [hoverride, hunsupported]
  have hinst : install di env =
      ⟨none, di.pkg (), [InstallEvent.lock, InstallEvent.resolve, InstallEvent.unlock]⟩ := by
    unfold install
    rw [hbody]
    rfl
  rw [hinst]
  simp

/-- Witness of C8: on a runtime that does not support the package, `install`
returns nil and the descriptor keeps `Rosetta2 = false` although the override
had set it. -/
theorem install_unsupported_witness :
    unsupportedEnv.Override (demoInstaller.pkg ()).PackageInfo
        (demoInstaller.pkg ()).Package.Version
      = .ok { demoPkg.PackageInfo with Rosetta2 := true } ∧
    unsupportedEnv.CheckSupported { demoPkg.PackageInfo with Rosetta2 := true } = .ok false ∧
    (install demoInstaller unsupportedEnv).err = none ∧
    (install demoInstaller unsupportedEnv).pkg = demoPkg :=
  ⟨rfl, rfl,
    (install_unsupported demoInstaller unsupportedEnv
      { demoPkg.PackageInfo with Rosetta2 := true } rfl rfl).1,
    (install_unsupported demoInstaller unsupportedEnv
      { demoPkg.PackageInfo with Rosetta2 := true } rfl rfl).2.2.2.2.1⟩

/-- The lock discipline of one call of `install`: on every exit the effects are
`Lock`, then the body, which starts by resolving the descriptor and holds no
mutex operation, then `Unlock`. -/
theorem install_lock_discipline (di : DedicatedInstaller) (env : InstallEnv) :
    ∃ body, (install di env).trace =
        InstallEvent.lock :: InstallEvent.resolve :: body ++ [InstallEvent.unlock] ∧
      InstallEvent.lock ∉ body ∧ InstallEvent.unlock ∉ body ∧
      InstallEvent.resolve ∉ body := by
  have hbody : ∃ body, (installBody di env).trace = InstallEvent.resolve :: body ∧
      InstallEvent.lock ∉ body ∧ InstallEvent.unlock ∉ body ∧
      InstallEvent.resolve ∉ body := by
    unfold installBody
    cases h1 : env.Override (di.pkg ()).PackageInfo (di.pkg ()).Package.Version with
    | error err => simp only [h1]; exact ⟨[], by simp⟩
    | ok pkgInfo =>
      simp only [h1]
      cases h2 : env.CheckSupported pkgInfo with
      | error err => simp only [h2]; exact ⟨[], by simp⟩
      | ok supported =>
        simp only [h2]
        cases supported with
        | false => exact ⟨[], by simp⟩
        | true =>
          simp only [not_true_eq_false, if_false]
          split
          · exact ⟨[_, _], rfl, by simp, by simp, by simp⟩
          · exact ⟨[_, _], rfl, by simp, by simp, by simp⟩
  obtain ⟨body, hb, h1, h2, h3⟩ := hbody
  refine ⟨body, ?_, h1, h2, h3⟩
  unfold install
  simp [hb]

/-! ## Two calls of `install` on one coordinator -/

/-- The other of the two callers. -/
theorem Caller.eq_or_eq (c d : Caller) (e : Caller) (hcd : c ≠ d) : e = c ∨ e = d := by
  cases c <;> cases d <;> cases e <;> simp at hcd ⊢

/-- A process trace in which one caller has no effect is the marked trace of
the other caller. -/
theorem callTrace_nil (c d : Caller) (hcd : c ≠ d) :
    ∀ l : List (Caller × InstallEvent), callTrace c l = [] → l = tagged d (callTrace d l) := by
  intro l
  induction l with
  | nil => intro _; rfl
  | cons x rest ih =>
    obtain ⟨a, e⟩ := x
    intro h
    by_cases hac : a = c
    · simp [callTrace, hac] at h
    · have had : a = d := (Caller.eq_or_eq c d a hcd).resolve_left hac
      simp only [callTrace, hac, if_false] at h
      subst had
      have hrest := ih h
      simp only [callTrace, if_true, tagged, List.map_cons]
      exact congrArg _ hrest

/-- While caller `c` holds the mutex and the other caller is still to take it,
the process can only run `c` up to its `Unlock`. -/
theorem mutexAdmits_holder (c d : Caller) (hcd : c ≠ d) (others : List InstallEvent) :
    ∀ (body : List InstallEvent) (l : List (Caller × InstallEvent)),
      InstallEvent.lock ∉ body → InstallEvent.unlock ∉ body →
      callTrace c l = body ++ [InstallEvent.unlock] →
      callTrace d l = InstallEvent.lock :: others →
      mutexAdmits true l = true →
      ∃ l2, l = tagged c (body ++ [InstallEvent.unlock]) ++ l2 ∧ callTrace c l2 = [] ∧
        callTrace d l2 = InstallEvent.lock :: others := by
  intro body l
  induction l generalizing body with
  | nil =>
    intro _ _ hc
    simp [callTrace] at hc
  | cons x rest ih =>
    obtain ⟨a, e⟩ := x
    intro hlock hunlock hc hd hm
    have hdc : ¬ d = c := fun h => hcd h.symm
    by_cases hac : a = c
    · subst hac
      simp only [callTrace, if_true] at hc
      simp only [callTrace, hcd, if_false] at hd
      cases body with
      | nil =>
        have he : e = InstallEvent.unlock := by simpa using (List.cons.inj hc).1
        have hrest : callTrace a rest = [] := by simpa using (List.cons.inj hc).2
        subst he
        exact ⟨rest, by simp [tagged], hrest, hd⟩
      | cons b body2 =>
        have he : e = b := (List.cons.inj hc).1
        have hrest : callTrace a rest = body2 ++ [InstallEvent.unlock] := (List.cons.inj hc).2
        subst he
        have hb1 : e ≠ InstallEvent.lock := fun h => hlock (by simp [h])
        have hb2 : e ≠ InstallEvent.unlock := fun h => hunlock (by simp [h])
        have hl2 : InstallEvent.lock ∉ body2 := fun h => hlock (List.mem_cons_of_mem _ h)
        have hu2 : InstallEvent.unlock ∉ body2 := fun h => hunlock (List.mem_cons_of_mem _ h)
        have hm2 : mutexAdmits true rest = true := by
          cases e with
          | lock => exact absurd rfl hb1
          | unlock => exact absurd rfl hb2
          | resolve => simpa [mutexAdmits] using hm
          | checksumLookup key => simpa [mutexAdmits] using hm
          | installPackage param => simpa [mutexAdmits] using hm
        obtain ⟨l2, hl, h1, h2⟩ := ih body2 hl2 hu2 hrest hd hm2
        exact ⟨l2, by rw [hl]; simp [tagged], h1, h2⟩
    · have had : a = d := (Caller.eq_or_eq c d a hcd).resolve_left hac
      subst had
      simp only [callTrace, if_true] at hd
      have he : e = InstallEvent.lock := (List.cons.inj hd).1
      subst he
      simp [mutexAdmits] at hm

/-- Two critical sections on one mutex run one after the other. -/
theorem mutexAdmits_serial (c d : Caller) (hcd : c ≠ d) (bodyC bodyD : List InstallEvent)
    (l : List (Caller × InstallEvent))
    (hcl : InstallEvent.lock ∉ bodyC) (hcu : InstallEvent.unlock ∉ bodyC)
    (hc : callTrace c l = InstallEvent.lock :: bodyC ++ [InstallEvent.unlock])
    (hd : callTrace d l = InstallEvent.lock :: bodyD ++ [InstallEvent.unlock])
    (hm : mutexAdmits false l = true)
    (hfirst : ∃ e rest, l = (c, e) :: rest) :
    l = tagged c (InstallEvent.lock :: bodyC ++ [InstallEvent.unlock]) ++
      tagged d (InstallEvent.lock :: bodyD ++ [InstallEvent.unlock]) := by
  obtain ⟨e, rest, hl⟩ := hfirst
  subst hl
  have hdc : ¬ c = d := hcd
  simp only [callTrace, if_true, List.cons_append] at hc
  simp only [callTrace, hdc, if_false] at hd
  have he : e = InstallEvent.lock := (List.cons.inj hc).1
  have hrest : callTrace c rest = bodyC ++ [InstallEvent.unlock] := (List.cons.inj hc).2
  subst he
  have hm2 : mutexAdmits true rest = true := by simpa [mutexAdmits] using hm
  obtain ⟨l2, hl, h1, h2⟩ :=
    mutexAdmits_holder c d hcd (bodyD ++ [InstallEvent.unlock]) bodyC rest hcl hcu hrest
      (by simpa using hd) hm2
  have hl2 := callTrace_nil c d hcd l2 h1
  rw [h2] at hl2
  rw [hl, hl2]
  simp [tagged]

/-- An overlapping schedule, the second caller taking the lock while the first
holds it, is not a run of the process. -/
theorem mutexAdmits_refuses_overlap :
    mutexAdmits false
      [(Caller.first, InstallEvent.lock), (Caller.second, InstallEvent.lock),
       (Caller.first, InstallEvent.resolve), (Caller.second, InstallEvent.resolve),
       (Caller.first, InstallEvent.unlock), (Caller.second, InstallEvent.unlock)] = false := by
  rfl

/-- C9: every call of `install` takes the coordinator's mutex first, resolves
the descriptor (`di.pkg()`) only after that, and releases the mutex last, on
every exit path; hence in every run of two calls on the same coordinator (an
interleaving of the two calls' effects that the shared `sync.Mutex` admits)
the whole of one call precedes the whole of the other: their bodies never
interleave. `di1`, `env1` and `di2`, `env2` are the coordinator and the
collaborators as the first and the second call find them. -/
theorem install_mutual_exclusion (di1 di2 : DedicatedInstaller) (env1 env2 : InstallEnv)
    (l : List (Caller × InstallEvent))
    (h1 : callTrace Caller.first l = (install di1 env1).trace)
    (h2 : callTrace Caller.second l = (install di2 env2).trace)
    (hmutex : mutexAdmits false l = true) :
    (∃ body, (install di1 env1).trace =
        InstallEvent.lock :: InstallEvent.resolve :: body ++ [InstallEvent.unlock] ∧
      InstallEvent.lock ∉ body ∧ InstallEvent.unlock ∉ body ∧ InstallEvent.resolve ∉ body) ∧
    (∃ body, (install di2 env2).trace =
        InstallEvent.lock :: InstallEvent.resolve :: body ++ [InstallEvent.unlock] ∧
      InstallEvent.lock ∉ body ∧ InstallEvent.unlock ∉ body ∧ InstallEvent.resolve ∉ body) ∧
    (l = tagged Caller.first (install di1 env1).trace ++
          tagged Caller.second (install di2 env2).trace ∨
      l = tagged Caller.second (install di2 env2).trace ++
          tagged Caller.first (install di1 env1).trace) := by
  have hd1 := install_lock_discipline di1 env1
  have hd2 := install_lock_discipline di2 env2
  refine ⟨hd1, hd2, ?_⟩
  obtain ⟨b1, ht1, hl1, hu1, -⟩ := hd1
  obtain ⟨b2, ht2, hl2, hu2, -⟩ := hd2
  have hb1l : InstallEvent.lock ∉ InstallEvent.resolve :: b1 := by simp [hl1]
  have hb1u : InstallEvent.unlock ∉ InstallEvent.resolve :: b1 := by simp [hu1]
  have hb2l : InstallEvent.lock ∉ InstallEvent.resolve :: b2 := by simp [hl2]
  have hb2u : InstallEvent.unlock ∉ InstallEvent.resolve :: b2 := by simp [hu2]
  rw [ht1] at h1 ⊢
  rw [ht2] at h2 ⊢
  have hne12 : Caller.first ≠ Caller.second := by decide
  have hne21 : Caller.second ≠ Caller.first := by decide
  cases l with
  | nil => simp [callTrace] at h1
  | cons x rest =>
    obtain ⟨a, e⟩ := x
    cases a with
    | first =>
      exact Or.inl (mutexAdmits_serial Caller.first Caller.second hne12
        (InstallEvent.resolve :: b1) (InstallEvent.resolve :: b2) _ hb1l hb1u
        (by simpa using h1) (by simpa using h2) hmutex ⟨e, rest, rfl⟩)
    | second =>
      exact Or.inr (mutexAdmits_serial Caller.second Caller.first hne21
        (InstallEvent.resolve :: b2) (InstallEvent.resolve :: b1) _ hb2l hb2u
        (by simpa using h2) (by simpa using h1) hmutex ⟨e, rest, rfl⟩)

/-- Witness of C9: a run in which the second caller, on a runtime that does not
support the package, goes first, and the first caller installs after it. -/
theorem install_mutual_exclusion_witness :
    callTrace Caller.first
        (tagged Caller.second (install demoInstaller unsupportedEnv).trace ++
          tagged Caller.first (install demoInstaller supportedEnv).trace)
      = (install demoInstaller supportedEnv).trace ∧
    callTrace Caller.second
        (tagged Caller.second (install demoInstaller unsupportedEnv).trace ++
          tagged Caller.first (install demoInstaller supportedEnv).trace)
      = (install demoInstaller unsupportedEnv).trace ∧
    mutexAdmits false
        (tagged Caller.second (install demoInstaller unsupportedEnv).trace ++
          tagged Caller.first (install demoInstaller supportedEnv).trace) = true ∧
    (tagged Caller.second (install demoInstaller unsupportedEnv).trace ++
          tagged Caller.first (install demoInstaller supportedEnv).trace =
        tagged Caller.first (install demoInstaller supportedEnv).trace ++
          tagged Caller.second (install demoInstaller unsupportedEnv).trace ∨
      tagged Caller.second (install demoInstaller unsupportedEnv).trace ++
          tagged Caller.first (install demoInstaller supportedEnv).trace =
        tagged Caller.second (install demoInstaller unsupportedEnv).trace ++
          tagged Caller.first (install demoInstaller supportedEnv).trace) :=
  ⟨rfl, rfl, rfl,
    (install_mutual_exclusion demoInstaller demoInstaller supportedEnv unsupportedEnv
      (tagged Caller.second (install demoInstaller unsupportedEnv).trace ++
        tagged Caller.first (install demoInstaller supportedEnv).trace) rfl rfl rfl).2.2⟩

end Aqua
